import Mathlib

/-!
# Conversation turn controller of `examples/talk/talk.cpp`

A shallow embedding of the control logic of `main` in `examples/talk/talk.cpp`:
the start-up code that loads a session and compares it with the prompt
(lines 404-509), the hearing of a turn with the wake-up command gate and the clean-up
of the heard text (lines 530-600), the code that opens a turn (lines 626-635) and the
body of the text-inference loop (lines 636-785) with the preparation of the sampling
(lines 726-747).

Conventions.

* A `llama_token` is a C `int`; the `int` counters `n_past`, `n_keep`, `n_ctx` and
  `n_session_consumed` are integers, and `n_prev`, which only ever holds the literal it
  is initialised with, is a natural number. All of them stay far below `2 ^ 31` (they
  count tokens of a context of `n_ctx` entries), so no wrap-around is modelled.
* `std::vector<llama_token>` is a `List llama_token`; `v.size()` is `v.length`.
* The engine (`llama_decode`, the tokenizer, the sampler, the session file primitives) is
  outside the program. Its answers are inputs of the model, and the calls the program
  makes to `llama_decode` and `llama_state_save_file` are recorded in two logs kept in
  the state (`decoded`, `saved`).
* A read or write outside a vector, and a fatal `return 1`, end the run: the functions
  return `Except Fault _`.
-/

namespace Talk

/-- Token identifier of the generator's vocabulary (`typedef int32_t llama_token`). -/
abbrev llama_token := Int

/-- Ways in which the modelled part of `main` stops instead of going on. -/
inductive Fault where
  /-- An access outside the bounds of a vector (undefined behaviour in C++). -/
  | out_of_bounds
  /-- The call `llama_state_load_file` failed: `return 1` at line 418. -/
  | load_failed
  /-- The call `llama_decode` failed: `return 1` at lines 451 and 698. -/
  | decode_failed
  deriving DecidableEq

deriving instance DecidableEq for Except

/-- Properties of the loaded model that the loop consults. -/
structure Vocab where
  /-- Models `llama_token_is_eog(model_llama, id)`. -/
  is_eog : llama_token → Bool
  /-- Models `llama_token_nl(model_llama)`. -/
  token_nl : llama_token
  /-- Models `llama_token_to_piece(ctx_llama, id)`. -/
  token_to_piece : llama_token → String

/-- The mutable locals of `main` that the conversation loop works on, with two logs. -/
structure State where
  /-- The history `embd_inp` (line 404). -/
  embd_inp : List llama_token
  /-- The pending tokens `embd` (line 511). -/
  embd : List llama_token
  /-- The vector `session_tokens` (line 389). -/
  session_tokens : List llama_token
  /-- The string `path_session` (line 388). -/
  path_session : String
  /-- The flag `need_to_save_session` (line 483). -/
  need_to_save_session : Bool
  /-- The constant `n_keep` (line 504). -/
  n_keep : Int
  /-- The constant `n_ctx` (line 505). -/
  n_ctx : Int
  /-- The counter `n_past` (line 507). -/
  n_past : Int
  /-- The variable `n_prev` (line 508), set once to a literal count. -/
  n_prev : Nat
  /-- The counter `n_session_consumed` (line 509). -/
  n_session_consumed : Int
  /-- The flag `done` of the current turn (line 634). -/
  done : Bool
  /-- The string `text_to_speak` of the current turn (line 635). -/
  text_to_speak : String
  /-- Log: every call of `llama_decode`, oldest first, as the value of `n_past` at the
  call (position `i` of the batch is `n_past + i`) and the tokens of the batch. -/
  decoded : List (Int × List llama_token)
  /-- Log: the token sequence of every call of `llama_state_save_file`, oldest first. -/
  saved : List (List llama_token)
  deriving DecidableEq

/-- Models `std::vector<llama_token>::resize(n)`: keeps the first `n` elements, and pads
with value-initialised (zero) tokens when `n` exceeds the size. -/
def resize (v : List llama_token) (n : Nat) : List llama_token :=
  v.take n ++ List.replicate (n - v.length) 0

/-! ## Start-up (lines 404-509) -/

/-- What is found at `path_session` when the program starts. -/
inductive SessionFile where
  /-- The call `fopen` returns `NULL`: there is no file. -/
  | absent
  /-- The file exists and `llama_state_load_file` returns `false`. -/
  | unreadable
  /-- The file exists, `llama_state_load_file` returns `true`, and these are the tokens
  that `session_tokens` holds after line 420. -/
  | loaded (tokens : List llama_token)
  deriving DecidableEq

/-- Lines 406-429: loads the session, and writes every loaded token over the entry of
`embd_inp` with the same index (`embd_inp[i] = session_tokens[i]`). Returns
`session_tokens` and `embd_inp`. -/
def load_session (path_session : String) (file : SessionFile)
    (embd_inp : List llama_token) : Except Fault (List llama_token × List llama_token) :=
  if path_session ≠ "" then
    match file with
    | .absent => .ok ([], embd_inp)
    | .unreadable => .error .load_failed
    | .loaded tokens =>
      if embd_inp.length < tokens.length then .error .out_of_bounds
      else .ok (tokens, tokens ++ embd_inp.drop tokens.length)
  else .ok ([], embd_inp)

/-- The range-for loop of lines 463-468, started with the rest of `session_tokens` still
to visit and the current value of `n_matching_session_tokens`. -/
def matching_loop (embd_inp : List llama_token) : List llama_token → Nat → Nat
  | [], n => n
  | id :: rest, n =>
    if embd_inp.length ≤ n ∨ embd_inp[n]? ≠ some id then n
    else matching_loop embd_inp rest (n + 1)

/-- Lines 461-468: the value of `n_matching_session_tokens` after the comparison. -/
def n_matching_session_tokens (session_tokens embd_inp : List llama_token) : Nat :=
  if session_tokens.length ≠ 0 then matching_loop embd_inp session_tokens 0 else 0

/-- Line 483: the initial value of `need_to_save_session`. The sizes are `size_t`;
the product by three is far below `2 ^ 64`. -/
def initial_need_to_save_session (path_session : String) (n_matching embd_inp_size : Nat) :
    Bool :=
  decide (path_session ≠ "") && decide (n_matching < embd_inp_size * 3 / 4)

/-- The value of `n_matching_session_tokens` that start-up computes from the tokenized
prompt and the session file (lines 404-468), when start-up gets that far. `decode_ok`
tells whether the `llama_decode` of line 449 succeeds. -/
def startup_n_matching (path_session : String) (file : SessionFile)
    (prompt : List llama_token) (decode_ok : Bool) : Except Fault Nat :=
  match load_session path_session file prompt with
  | .error e => .error e
  | .ok (session_tokens, embd_inp) =>
    if decode_ok then .ok (n_matching_session_tokens session_tokens embd_inp)
    else .error .decode_failed

/-- Lines 404-511: the state in which the main loop is entered. `prompt` is the tokenized
initial prompt, `decode_ok` tells whether the `llama_decode` of line 449 succeeds. -/
def startup (n_ctx : Int) (n_prev : Nat) (path_session : String) (file : SessionFile)
    (prompt : List llama_token) (decode_ok : Bool) : Except Fault State :=
  match load_session path_session file prompt with
  | .error e => .error e
  | .ok (session_tokens, embd_inp) =>
    if decode_ok then
      .ok {
        embd_inp := embd_inp
        embd := []
        session_tokens := session_tokens
        path_session := path_session
        need_to_save_session :=
          initial_need_to_save_session path_session
            (n_matching_session_tokens session_tokens embd_inp) embd_inp.length
        n_keep := embd_inp.length
        n_ctx := n_ctx
        n_past := embd_inp.length
        n_prev := n_prev
        n_session_consumed :=
          if path_session ≠ "" ∧ 0 < session_tokens.length then session_tokens.length else 0
        done := false
        text_to_speak := ""
        decoded := [(0, embd_inp)]
        saved := [] }
    else .error .decode_failed

/-! ## Opening a turn (lines 626-635) -/

/-- Lines 626-635, reached when the heard text and its tokens are not empty (line 593).
`tokens` is the tokenization of the normalized heard text (line 591), `embd` the
tokenization of the same text wrapped in the header markers (line 626). -/
def begin_turn (tokens embd : List llama_token) (s : State) : State :=
  { s with
    embd := embd
    session_tokens := if s.path_session ≠ "" then s.session_tokens ++ tokens else s.session_tokens
    done := false
    text_to_speak := "" }

/-! ## The text-inference loop (lines 636-785) -/

/-- Lines 639-653: the handling of a context overflow. -/
def overflow (s : State) : Except Fault State :=
  if s.n_past + s.embd.length > s.n_ctx then
    if s.n_prev ≤ s.embd_inp.length then
      .ok { s with
        n_past := s.n_keep
        embd := s.embd_inp.drop (s.embd_inp.length - s.n_prev) ++ s.embd
        path_session := "" }
    else .error .out_of_bounds
  else .ok s

/-- Result of the loop of lines 659-672: the final `i`, `n_past`, `n_session_consumed`
and `session_tokens`. -/
structure Walk where
  i : Nat
  n_past : Int
  n_session_consumed : Int
  session_tokens : List llama_token
  deriving DecidableEq

/-- The `for` loop of lines 659-672. The first argument is the part of `embd` from index
`i` on. -/
def walk_loop : List llama_token → Walk → Except Fault Walk
  | [], w => .ok w
  | e :: rest, w =>
    if w.n_session_consumed < 0 ∨ (w.session_tokens.length : Int) ≤ w.n_session_consumed then
      .error .out_of_bounds
    else if w.session_tokens[w.n_session_consumed.toNat]? ≠ some e then
      .ok { w with session_tokens := resize w.session_tokens w.n_session_consumed.toNat }
    else if w.n_session_consumed + 1 ≥ w.session_tokens.length then
      .ok { w with i := w.i + 1, n_past := w.n_past + 1,
                   n_session_consumed := w.n_session_consumed + 1 }
    else
      walk_loop rest { w with i := w.i + 1, n_past := w.n_past + 1,
                              n_session_consumed := w.n_session_consumed + 1 }

/-- Lines 657-676: the walk that reuses a prefix of the session. -/
def reuse (s : State) : Except Fault State :=
  if s.n_session_consumed < s.session_tokens.length then
    match walk_loop s.embd ⟨0, s.n_past, s.n_session_consumed, s.session_tokens⟩ with
    | .error e => .error e
    | .ok w =>
      .ok { s with
        n_past := w.n_past
        n_session_consumed := w.n_session_consumed
        session_tokens := w.session_tokens
        embd := if 0 < w.i then s.embd.drop w.i else s.embd }
  else .ok s

/-- Lines 678-681: the pending tokens are recorded in `session_tokens`. -/
def record (s : State) : State :=
  if 0 < s.embd.length ∧ s.path_session ≠ "" then
    { s with
      session_tokens := s.session_tokens ++ s.embd
      n_session_consumed := ((s.session_tokens ++ s.embd).length : Int) }
  else s

/-- Lines 683-699: the batch is filled from `embd` with positions `n_past + i` and handed
to `llama_decode`; a failure of the call ends the program. -/
def decode (decode_ok : Bool) (s : State) : Except Fault State :=
  if decode_ok then .ok { s with decoded := s.decoded ++ [(s.n_past, s.embd)] }
  else .error .decode_failed

/-- Lines 638-700: the block guarded by `embd.size() > 0`. -/
def predict (decode_ok : Bool) (s : State) : Except Fault State :=
  if 0 < s.embd.length then
    match overflow s with
    | .error e => .error e
    | .ok s1 =>
      match reuse s1 with
      | .error e => .error e
      | .ok s2 => decode decode_ok (record s2)
  else .ok s

/-- Lines 703-706: the pending tokens join the history. -/
def commit (s : State) : State :=
  { s with
    embd_inp := s.embd_inp ++ s.embd
    n_past := s.n_past + s.embd.length
    embd := [] }

/-- Lines 719-722: the session is saved when a save is due. -/
def save_session (s : State) : State :=
  if s.path_session ≠ "" ∧ s.need_to_save_session = true then
    { s with need_to_save_session := false, saved := s.saved ++ [s.session_tokens] }
  else s

/-- Lines 761-777: what is done with the sampled token `id`. -/
def accept (v : Vocab) (id : llama_token) (s : State) : State :=
  if (!v.is_eog id) && id != v.token_nl then
    { s with embd := s.embd ++ [id], text_to_speak := s.text_to_speak ++ v.token_to_piece id }
  else
    { s with done := true, need_to_save_session := true }

/-- What the surroundings deliver during one pass through the loop body. -/
structure Input where
  /-- Whether the call of `llama_decode` (line 696), if made, succeeds. -/
  decode_ok : Bool
  /-- The token that the sampler returns (lines 724-759), if it is asked. -/
  id : llama_token
  /-- The result of `sdl_poll_events()` at line 780. -/
  is_running : Bool
  deriving DecidableEq

/-- One pass through the body of `while (true)` (lines 636-785). The Boolean tells
whether the loop goes on with another pass (`true`) or is left by a `break`. -/
def iteration (v : Vocab) (inp : Input) (s : State) : Except Fault (State × Bool) :=
  match predict inp.decode_ok s with
  | .error e => .error e
  | .ok s1 =>
    let s2 := commit s1
    if s2.done then .ok (s2, false)
    else .ok (accept v inp.id (save_session s2), inp.is_running)

/-- The text-inference loop fed with the inputs of its successive passes: it stops at the
first `break`, or when the inputs are used up (the run is then observed in mid-loop). -/
def inference : Vocab → List Input → State → Except Fault State
  | _, [], s => .ok s
  | v, inp :: rest, s =>
    match iteration v inp s with
    | .error e => .error e
    | .ok (s1, true) => inference v rest s1
    | .ok (s1, false) => .ok s1

/-- Lines 743-745: the cells handed to `llama_sample_repetition_penalties` as its window
of recent tokens, namely `repeat_last_n = 256` cells starting at
`embd_inp.data() + std::max(0, n_past - repeat_last_n)`. A cell inside the vector is given
with its token, a cell past the end of the vector is `none`. -/
def penalty_window (s : State) : List (Option llama_token) :=
  (List.range 256).map (fun (i : Nat) => s.embd_inp[(max 0 (s.n_past - 256)).toNat + i]?)

/-- Lines 727-747: what precedes the selection of a token. `logits` is the array returned
by `llama_get_logits`, with one score per token of the vocabulary; `zero` is the score
`0`; `penalties` stands for `llama_sample_repetition_penalties`, which works on the
candidate list and is given the window `last_tokens`; `eos` and `nl` are the tokens
`llama_token_eos` and `llama_token_nl`. The result is the array `logits` as it is left and
the candidate list that the selection step (lines 749-758) receives in `candidates_p`. -/
def sampler_candidates {σ : Type} (zero : σ)
    (penalties : List (Option llama_token) → List (llama_token × σ) → List (llama_token × σ))
    (eos nl : Nat) (last_tokens : List (Option llama_token)) (logits : List σ) :
    Except Fault (List σ × List (llama_token × σ)) :=
  if eos < logits.length then
    let logits1 := logits.set eos zero
    let candidates := logits1.enum.map (fun p => ((p.1 : Int), p.2))
    match logits1[nl]? with
    | none => .error .out_of_bounds
    | some nl_logit =>
      let candidates1 := penalties last_tokens candidates
      let logits2 := logits1.set nl nl_logit
      .ok (logits2, candidates1)
  else .error .out_of_bounds

/-- One move of the conversation between two program points. A point is a state with a
Boolean: `false` at the head of the main loop (line 514), `true` at the head of a pass of
the text-inference loop (line 636). A move opens a turn, or is one pass of the loop.
The relation does not record that the program ends once `sdl_poll_events` has reported a
quit, so it allows every run of the program and some longer ones. -/
inductive Step (v : Vocab) : Bool × State → Bool × State → Prop where
  | turn (tokens embd : List llama_token) (s : State) :
      tokens ≠ [] → Step v (false, s) (true, begin_turn tokens embd s)
  | pass (inp : Input) (s s1 : State) (b : Bool) :
      iteration v inp s = .ok (s1, b) → Step v (true, s) (b, s1)

/-- Any number of moves. -/
abbrev Steps (v : Vocab) : Bool × State → Bool × State → Prop :=
  Relation.ReflTransGen (Step v)

/-- The points the program can be at: those that moves lead to from a start-up. -/
def Reach (v : Vocab) (p : Bool × State) : Prop :=
  ∃ (n_ctx : Int) (n_prev : Nat) (path_session : String) (file : SessionFile)
    (prompt : List llama_token) (decode_ok : Bool) (s0 : State),
    startup n_ctx n_prev path_session file prompt decode_ok = .ok s0 ∧ Steps v (false, s0) p

/-! ## Hearing a turn (lines 235-245 and 530-600)

A `std::string` is modelled as the list of its `char`s. -/

/-- The white space of the classic locale, which `operator>>` skips and `\s` matches:
space, tab, line feed, vertical tab, form feed, carriage return. -/
def is_space (c : Char) : Bool :=
  c == ' ' || c == '\t' || c == '\n' || c == Char.ofNat 11 || c == Char.ofNat 12 || c == '\r'

/-- The loop `while (iss >> word)` of `get_words` (lines 240-242), at some place of the
text with the characters of `word` read so far. -/
def words_loop : List Char → List Char → List (List Char)
  | [], word => if word.isEmpty then [] else [word]
  | c :: rest, word =>
    if is_space c then
      if word.isEmpty then words_loop rest [] else word :: words_loop rest []
    else words_loop rest (word ++ [c])

/-- Lines 235-245: the words of a text, separated by white space. -/
def get_words (txt : List Char) : List (List Char) :=
  words_loop txt []

/-- The loop of lines 546-552, at index `i` with the words from `i` on still to visit,
working on the pair of `wake_cmd_heard` and `text_heard`. -/
def heard_loop (wake_cmd_length : Nat) :
    List (List Char) → Nat → List Char × List Char → List Char × List Char
  | [], _, heard => heard
  | word :: rest, i, (wake_cmd_heard, text_heard) =>
    if i < wake_cmd_length then
      heard_loop wake_cmd_length rest (i + 1) (wake_cmd_heard ++ (word ++ [' ']), text_heard)
    else
      heard_loop wake_cmd_length rest (i + 1) (wake_cmd_heard, text_heard ++ (word ++ [' ']))

/-- Lines 541-562: the wake-up command gate. `similarity` stands for the function of that
name of the common library, whose score is a finite number; `all_heard` is the trimmed
transcript. The result is `text_heard` when the turn goes on, and `none` when it is
dropped by the `continue` of line 560. -/
def wake_gate (similarity : List Char → List Char → ℚ) (wake_cmd all_heard : List Char) :
    Option (List Char) :=
  let words := get_words all_heard
  let wake_cmd_length := (get_words wake_cmd).length
  let heard := heard_loop wake_cmd_length words 0 ([], [])
  if 0 < wake_cmd_length then
    if similarity heard.1 wake_cmd < 1 / 2 ∨ heard.2 = [] then none else some heard.2
  else some heard.2

/-- The characters that `.` does not match in the regular expressions of lines 571 and
577. -/
def is_line_terminator (c : Char) : Bool :=
  c == '\n' || c == '\r'

/-- The match of `.*?` followed by the closing character, tried at the start of the
given text: the number of characters up to and including the first closing character,
when no line terminator comes before it. -/
def span_length (closing : Char) : List Char → Option Nat
  | [] => none
  | c :: rest =>
    if c == closing then some 1
    else if is_line_terminator c then none
    else (span_length closing rest).map (fun n => n + 1)

/-- Models `std::regex_replace` with the opening character, `.*?`, the closing character
and the empty replacement (lines 571-572 and 577-578). The number tells how many
characters of the match in progress are still to be dropped. -/
def remove_spans (opening closing : Char) : List Char → Nat → List Char
  | [], _ => []
  | _ :: rest, k + 1 => remove_spans opening closing rest k
  | c :: rest, 0 =>
    if c == opening then
      match span_length closing rest with
      | some n => remove_spans opening closing rest n
      | none => c :: remove_spans opening closing rest 0
    else c :: remove_spans opening closing rest 0

/-- The characters that the bracket expression of line 582 lets through: ASCII letters,
digits, `.`, `,`, `?`, `!`, white space, `:`, the apostrophe (code 39) and `-`. -/
def allowed (c : Char) : Bool :=
  (decide ('a' ≤ c) && decide (c ≤ 'z')) || (decide ('A' ≤ c) && decide (c ≤ 'Z')) ||
  (decide ('0' ≤ c) && decide (c ≤ '9')) || c == '.' || c == ',' || c == '?' || c == '!' ||
  is_space c || c == ':' || c == Char.ofNat 39 || c == '-'

/-- Line 585: the text up to the first line feed. -/
def first_line (txt : List Char) : List Char :=
  txt.takeWhile (fun c => c != '\n')

/-- Line 589: models `std::regex_replace` with `\s+$` and the empty replacement. At each
place the expression matches when all that is left is white space. -/
def strip_trailing : List Char → List Char
  | [] => []
  | c :: rest => if (c :: rest).all is_space then [] else c :: strip_trailing rest

/-- Lines 569-589: the clean-up of the heard text. The anchors `^` and `$` of lines 588
and 589 are taken at the two ends of the text. -/
def normalize (text_heard : List Char) : List Char :=
  let t1 := remove_spans '[' ']' text_heard 0
  let t2 := remove_spans '(' ')' t1 0
  let t3 := t2.filter allowed
  let t4 := first_line t3
  let t5 := t4.dropWhile is_space
  strip_trailing t5

/-- How a pass of the main loop ends as far as hearing goes. -/
inductive Heard where
  /-- Neither voice activity nor `force_speak`: the block of line 530 is skipped. -/
  | no_speech
  /-- The turn is dropped: `audio.clear(); continue;` at lines 559-560 or 595-597. -/
  | discarded
  /-- Line 600 is reached with this `text_heard` and these `tokens`; the turn is opened
  (lines 618-635) and the text-inference loop is entered. -/
  | accepted (text_heard : List Char) (tokens : List llama_token)
  deriving DecidableEq

/-- Lines 530-600. `vad` is the result of `vad_simple`, `transcript` the trimmed result of
`transcribe` for the audio at hand, `tokenize` stands for `llama_tokenize` without the
begin-of-text token. -/
def hear (similarity : List Char → List Char → ℚ) (tokenize : List Char → List llama_token)
    (wake_cmd : List Char) (vad force_speak : Bool) (transcript : List Char) : Heard :=
  if vad || force_speak then
    let all_heard := if !force_speak then transcript else []
    match wake_gate similarity wake_cmd all_heard with
    | none => .discarded
    | some text_heard =>
      let text := normalize text_heard
      let tokens := tokenize text
      if text.isEmpty || tokens.isEmpty || force_speak then .discarded
      else .accepted text tokens
  else .no_speech

/-! ## Notions used to state the properties -/

/-- Specification side: the length of the longest common prefix of two token sequences. -/
def common_prefix_length : List llama_token → List llama_token → Nat
  | a :: as, b :: bs => if a = b then common_prefix_length as bs + 1 else 0
  | _, _ => 0

/-! ## Concrete data for the examples -/

/-- A vocabulary in the manner of Llama 3: token 128009 ends the generation, token 198 is
the line feed. -/
def vocab0 : Vocab :=
  { is_eog := fun id => id == 128009
    token_nl := 198
    token_to_piece := fun _ => "x" }

/-- The tokens `a, a + 1, ..., a + n - 1`. -/
def tokens_from (a : Int) (n : Nat) : List llama_token :=
  (List.range n).map (fun (i : Nat) => a + (i : Int))

/-- The state of the end-to-end example: `n_keep = 50`, `n_ctx = 60`, `n_prev = 10`,
`n_past = 55`, a history of 55 tokens and 20 pending tokens. -/
def state_c1 : State :=
  { embd_inp := tokens_from 100 55
    embd := tokens_from 500 20
    session_tokens := []
    path_session := "talk.session"
    need_to_save_session := false
    n_keep := 50
    n_ctx := 60
    n_past := 55
    n_prev := 10
    n_session_consumed := 0
    done := false
    text_to_speak := ""
    decoded := []
    saved := [] }

/-- A state in mid-conversation for the prefix-reuse walk: two of five session tokens are
consumed, and the pending tokens agree with the next two session tokens only. -/
def state_c3 : State :=
  { embd_inp := [1, 2]
    embd := [3, 4, 9, 9]
    session_tokens := [1, 2, 3, 4, 5]
    path_session := "talk.session"
    need_to_save_session := false
    n_keep := 2
    n_ctx := 2048
    n_past := 2
    n_prev := 64
    n_session_consumed := 2
    done := false
    text_to_speak := ""
    decoded := [(0, [1, 2])]
    saved := [] }

/-- The state in which the main loop is entered after a start-up with `n_ctx = 60`,
`n_prev = 10`, a session path without a file and a prompt of the 50 tokens 100 to 149. -/
def demo0 : State :=
  { embd_inp := tokens_from 100 50
    embd := []
    session_tokens := []
    path_session := "talk.session"
    need_to_save_session := true
    n_keep := 50
    n_ctx := 60
    n_past := 50
    n_prev := 10
    n_session_consumed := 0
    done := false
    text_to_speak := ""
    decoded := [(0, tokens_from 100 50)]
    saved := [] }

/-- The state after a turn of 20 tokens was opened in `demo0` and one pass of the loop
was made, in which the context overflowed and token 7 was sampled. -/
def demo1 : State :=
  { embd_inp := tokens_from 100 50 ++ (tokens_from 140 10 ++ tokens_from 500 20)
    embd := [7]
    session_tokens := []
    path_session := ""
    need_to_save_session := true
    n_keep := 50
    n_ctx := 60
    n_past := 80
    n_prev := 10
    n_session_consumed := 0
    done := false
    text_to_speak := "x"
    decoded := [(0, tokens_from 100 50), (50, tokens_from 140 10 ++ tokens_from 500 20)]
    saved := [] }

/-- The state after one more pass from `demo1`, in which the context overflowed again and
the line feed was sampled. -/
def demo2 : State :=
  { embd_inp := tokens_from 100 50 ++ (tokens_from 140 10 ++ tokens_from 500 20)
      ++ (tokens_from 510 10 ++ [7])
    embd := []
    session_tokens := []
    path_session := ""
    need_to_save_session := true
    n_keep := 50
    n_ctx := 60
    n_past := 61
    n_prev := 10
    n_session_consumed := 0
    done := true
    text_to_speak := "x"
    decoded := [(0, tokens_from 100 50), (50, tokens_from 140 10 ++ tokens_from 500 20),
      (50, tokens_from 510 10 ++ [7])]
    saved := [] }

/-- A prompt of 2040 tokens, as a long prompt file gives. -/
def long_prompt : List llama_token := List.replicate 2040 7

/-- The state in which the main loop is entered with the constants of the program
(`n_ctx = 2048`, `n_prev = 64`), no session path and the prompt `long_prompt`. -/
def long0 : State :=
  { embd_inp := long_prompt
    embd := []
    session_tokens := []
    path_session := ""
    need_to_save_session := false
    n_keep := 2040
    n_ctx := 2048
    n_past := 2040
    n_prev := 64
    n_session_consumed := 0
    done := false
    text_to_speak := ""
    decoded := [(0, long_prompt)]
    saved := [] }

/-- The state after a turn of 12 tokens was opened in `long0` and one pass of the loop
was made, in which token 5 was sampled. -/
def long1 : State :=
  { embd_inp := long_prompt ++ (long_prompt.drop 1976 ++ tokens_from 300 12)
    embd := [5]
    session_tokens := []
    path_session := ""
    need_to_save_session := false
    n_keep := 2040
    n_ctx := 2048
    n_past := 2116
    n_prev := 64
    n_session_consumed := 0
    done := false
    text_to_speak := "x"
    decoded := [(0, long_prompt), (2040, long_prompt.drop 1976 ++ tokens_from 300 12)]
    saved := [] }

/-- A tokenized prompt of four tokens, the first being the begin-of-text token. -/
def first_prompt : List llama_token := [128000, 128006, 9125, 128009]

/-- The tokens of a heard text of one word (line 591). -/
def first_tokens : List llama_token := [15339]

/-- The tokens of the same text wrapped in the header markers (line 626): they begin
with the line feed and a header marker, and hold the word in the middle. -/
def first_embd : List llama_token :=
  [198, 128006, 882, 128007, 271, 15339, 128009, 198, 128006, 78191, 128007, 271]

/-- The state in which the main loop is entered on a first run: a session path is
configured, no session file exists yet, the prompt is `first_prompt`. -/
def first0 : State :=
  { embd_inp := first_prompt
    embd := []
    session_tokens := []
    path_session := "talk.session"
    need_to_save_session := true
    n_keep := 4
    n_ctx := 2048
    n_past := 4
    n_prev := 64
    n_session_consumed := 0
    done := false
    text_to_speak := ""
    decoded := [(0, first_prompt)]
    saved := [] }

/-- The state of the first run at line 700 of the first pass of the first turn: the
pending tokens are recorded in `session_tokens` and decoded. -/
def first_decoded : State :=
  { first0 with
    embd := first_embd
    session_tokens := first_embd
    n_session_consumed := 12
    decoded := [(0, first_prompt), (4, first_embd)] }

/-- The state of the first run at line 719 of the first pass of the first turn: the
pending tokens have joined the history, the session is about to be saved. -/
def first_at_save : State :=
  { first_decoded with
    embd_inp := first_prompt ++ first_embd
    embd := []
    n_past := 16 }

/-- The state of the first run after the first pass of the first turn, in which token
13347 was sampled. -/
def first1 : State :=
  { first_at_save with
    embd := [13347]
    need_to_save_session := false
    text_to_speak := "x"
    saved := [first_embd] }

/-- Specification side: `id` ends the generation of the turn, being an end-of-generation
token or the line feed token. -/
def is_stop (v : Vocab) (id : llama_token) : Bool :=
  v.is_eog id || id == v.token_nl

/-- Specification side: the tokens that the sampler is asked for, in order, while the
text-inference loop runs on the given inputs from a state with `done = false`. After a
stop token, or once `sdl_poll_events` has reported a quit, no further token is sampled. -/
def sampled_tokens (v : Vocab) : List Input → List llama_token
  | [] => []
  | inp :: rest =>
    inp.id :: (if is_stop v inp.id || !inp.is_running then [] else sampled_tokens v rest)

/-- Specification side: the concatenation of the text pieces of a token sequence. -/
def pieces (v : Vocab) : List llama_token → String
  | [] => ""
  | id :: rest => v.token_to_piece id ++ pieces v rest

/-- A vocabulary like `vocab0` whose pieces tell the tokens apart: the piece of token 1
is "a", that of token 2 is "b", every other piece is "?". -/
def vocab_ab : Vocab :=
  { is_eog := fun id => id == 128009
    token_nl := 198
    token_to_piece := fun id => if id = 1 then "a" else if id = 2 then "b" else "?" }

/-- An instance of the engine's repetition penalty for the examples, on exact rational
scores: the score of a candidate whose token is in the window is divided by `penalty`
when it is positive and multiplied by it otherwise. -/
def example_penalties (penalty : ℚ) (last_tokens : List (Option llama_token))
    (candidates : List (llama_token × ℚ)) : List (llama_token × ℚ) :=
  candidates.map (fun c =>
    if some c.1 ∈ last_tokens then
      (c.1, if c.2 ≤ 0 then c.2 * penalty else c.2 / penalty)
    else c)

/-- The state at the sampling step of the pass that follows `long1`: the context has
overflowed a second time, the last 64 tokens of the history and the pending token 5 were
decoded from `n_past = 2040` and have joined the history. -/
def long2_sampling : State :=
  { long1 with
    embd_inp := long1.embd_inp ++ (long1.embd_inp.drop 2052 ++ [5])
    embd := []
    n_past := 2105
    decoded := long1.decoded ++ [(2040, long1.embd_inp.drop 2052 ++ [5])] }

/-! ## Theorems -/

/-- The number `common_prefix_length a b` is the length of the longest common prefix: the
two sequences agree on their first `k` tokens, and they end or differ at index `k`. -/
theorem common_prefix_length_spec (a : List llama_token) :
    ∀ b : List llama_token,
      a.take (common_prefix_length a b) = b.take (common_prefix_length a b) ∧
      common_prefix_length a b ≤ a.length ∧ common_prefix_length a b ≤ b.length ∧
      ∀ (h1 : common_prefix_length a b < a.length) (h2 : common_prefix_length a b < b.length),
        a[common_prefix_length a b] ≠ b[common_prefix_length a b] := by
  induction a with
  | nil => intro b; simp [common_prefix_length]
  | cons x xs ih =>
    intro b
    cases b with
    | nil => simp [common_prefix_length]
    | cons y ys =>
      by_cases hxy : x = y
      · obtain ⟨h1, h2, h3, h4⟩ := ih ys
        simp only [common_prefix_length, hxy, if_true, List.take_succ_cons, List.length_cons]
        refine ⟨by rw [h1], by omega, by omega, ?_⟩
        intro k1 k2
        simpa using h4 (by omega) (by omega)
      · simp [common_prefix_length, hxy]


/-- C1. Overflow handling (lines 639-653). In a state whose history holds at least
`n_prev` tokens, whatever the pending sequence `embd` is: when `n_past + |embd| > n_ctx` the handling succeeds and changes exactly
three things, `n_past` becomes `n_keep`, `embd` becomes the last `n_prev` tokens of the
history (the suffix `tail` of length `n_prev`) followed by the old `embd`, and
`path_session` becomes empty; when `n_past + |embd| <= n_ctx` the state is unchanged. -/
theorem overflow_spec (s : State) (hprev : s.n_prev ≤ s.embd_inp.length) :
    (s.n_past + s.embd.length > s.n_ctx →
      ∃ front tail : List llama_token,
        s.embd_inp = front ++ tail ∧ tail.length = s.n_prev ∧
        overflow s = .ok { s with n_past := s.n_keep, embd := tail ++ s.embd,
                                  path_session := "" }) ∧
    (s.n_past + s.embd.length ≤ s.n_ctx → overflow s = .ok s) := by
  constructor
  · intro hover
    refine ⟨s.embd_inp.take (s.embd_inp.length - s.n_prev),
      s.embd_inp.drop (s.embd_inp.length - s.n_prev), ?_, ?_, ?_⟩
    · exact (List.take_append_drop _ _).symm
    · rw [List.length_drop]; omega
    · simp [overflow, hover, hprev]
  · intro hfit
    have : ¬ (s.n_past + s.embd.length > s.n_ctx) := by omega
    simp [overflow, this]

/-- C1, the end-to-end example: with `n_keep = 50`, `n_ctx = 60`, `n_prev = 10`,
`n_past = 55` and 20 pending tokens the overflow handling resets `n_past` to 50, empties
`path_session`, and the pending sequence becomes the 10 trailing tokens of the history
(145 to 154) followed by the 20 new ones. -/
theorem overflow_spec_witness :
    state_c1.embd ≠ [] ∧ state_c1.embd.length = 20 ∧
    state_c1.n_prev ≤ state_c1.embd_inp.length ∧
    state_c1.n_past + state_c1.embd.length > state_c1.n_ctx ∧
    overflow state_c1 = .ok { state_c1 with
      n_past := 50, embd := tokens_from 145 10 ++ tokens_from 500 20, path_session := "" } ∧
    ((state_c1.n_past + state_c1.embd.length > state_c1.n_ctx →
      ∃ front tail : List llama_token,
        state_c1.embd_inp = front ++ tail ∧ tail.length = state_c1.n_prev ∧
        overflow state_c1 =
          .ok { state_c1 with n_past := state_c1.n_keep, embd := tail ++ state_c1.embd,
                              path_session := "" }) ∧
    (state_c1.n_past + state_c1.embd.length ≤ state_c1.n_ctx →
      overflow state_c1 = .ok state_c1)) :=
  ⟨by decide, by decide, by decide, by decide, by decide,
    overflow_spec state_c1 (by decide)⟩

/-- The loop of the walk, started at index `i` with `n < |session_tokens|`: it advances
the three counters by the length `k` of the longest common prefix of the rest of `embd`
and `session_tokens[n..]`, and truncates `session_tokens` exactly on a mismatch. -/
theorem walk_loop_eq (es : List llama_token) :
    ∀ (i : Nat) (np : Int) (n : Nat) (sess : List llama_token), n < sess.length →
      walk_loop es ⟨i, np, (n : Int), sess⟩ =
        .ok ⟨i + common_prefix_length es (sess.drop n),
             np + (common_prefix_length es (sess.drop n) : Int),
             (n : Int) + (common_prefix_length es (sess.drop n) : Int),
             if common_prefix_length es (sess.drop n) < es.length ∧
                common_prefix_length es (sess.drop n) < sess.length - n
             then sess.take (n + common_prefix_length es (sess.drop n)) else sess⟩ := by
  induction es with
  | nil => intro i np n sess _; simp [walk_loop, common_prefix_length]
  | cons e rest ih =>
    intro i np n sess hn
    have hdrop : sess.drop n = sess[n] :: sess.drop (n + 1) := List.drop_eq_getElem_cons hn
    have hget : sess[n]? = some sess[n] := List.getElem?_eq_getElem hn
    have hlt : ¬ ((sess.length : Int) ≤ (n : Int)) := by omega
    by_cases he : e = sess[n]
    · by_cases hlast : n + 1 < sess.length
      · have h1 : ¬ ((n : Int) + 1 ≥ (sess.length : Int)) := by omega
        have := ih (i + 1) (np + 1) (n + 1) sess hlast
        simp only [Nat.cast_add, Nat.cast_one] at this
        simp only [walk_loop, hdrop, common_prefix_length, hlt, hget, he, h1, this,
          Int.toNat_ofNat, Nat.cast_nonneg, not_lt.mpr, or_self, if_false, ne_eq,
          not_true_eq_false, if_true, Nat.cast_add, Nat.cast_one, List.length_cons]
        congr 2
        · omega
        · omega
        · omega
        · have e1 : n + 1 + common_prefix_length rest (List.drop (n + 1) sess) =
              n + (common_prefix_length rest (List.drop (n + 1) sess) + 1) := by omega
          rw [e1]
          apply if_congr _ rfl rfl
          constructor <;> rintro ⟨a, b⟩ <;> constructor <;> omega
      · have h1 : (n : Int) + 1 ≥ (sess.length : Int) := by omega
        have hnil : sess.drop (n + 1) = [] := List.drop_eq_nil_of_le (by omega)
        have hc : common_prefix_length rest [] = 0 := by cases rest <;> rfl
        have hcond : ¬ (1 < sess.length - n) := by omega
        simp [walk_loop, hdrop, common_prefix_length, hlt, hget, he, h1, hnil, hc, hcond]
    · have hne : ¬ (sess[n] = e) := fun h => he h.symm
      have hpos : 0 < sess.length - n := by omega
      have hc : 0 < rest.length + 1 ∧ 0 < sess.length - n := ⟨by omega, hpos⟩
      have hr : n - sess.length = 0 := by omega
      have hn0 : ¬ ((n : Int) < 0) := by omega
      simp only [walk_loop, hdrop, common_prefix_length, hlt, hget, he, hne, resize,
        Int.toNat_ofNat, List.length_cons, hc, hr]
      simp [hn0, hne, hn]

/-- C3. Prefix-reuse walk (lines 657-676). In a state with
`0 <= n_session_consumed < |session_tokens|`, let `k` be the length of the longest common
prefix of `embd` and `session_tokens[n_session_consumed..]`. The walk succeeds, adds `k` to
`n_past` and to `n_session_consumed`, removes the first `k` tokens of `embd`, truncates
`session_tokens` to the new `n_session_consumed` exactly when it stopped on a mismatch
(`k < |embd|` and `k < |session_tokens| - n_session_consumed`), and changes nothing else. -/
theorem reuse_spec (s : State) (h0 : 0 ≤ s.n_session_consumed)
    (h1 : s.n_session_consumed < s.session_tokens.length) (k : Nat)
    (hk : k = common_prefix_length s.embd (s.session_tokens.drop s.n_session_consumed.toNat)) :
    reuse s = .ok { s with
      n_past := s.n_past + k
      n_session_consumed := s.n_session_consumed + k
      embd := s.embd.drop k
      session_tokens :=
        if k < s.embd.length ∧ (k : Int) < s.session_tokens.length - s.n_session_consumed
        then s.session_tokens.take (s.n_session_consumed + k).toNat
        else s.session_tokens } := by
  obtain ⟨n, hn⟩ := Int.eq_ofNat_of_zero_le h0
  have hlt : n < s.session_tokens.length := by omega
  have hw := walk_loop_eq s.embd 0 s.n_past n s.session_tokens hlt
  have hcond : ((k : Int) < (s.session_tokens.length : Int) - (n : Int)) ↔
      k < s.session_tokens.length - n := by omega
  have htn : ((n : Int) + (k : Int)).toNat = n + k := by omega
  rw [hn] at hk h1 ⊢
  simp only [Int.toNat_ofNat] at hk
  rw [← hk] at hw
  simp only [reuse, hn, h1, if_true, hw, Nat.zero_add, hcond, htn]
  by_cases hk0 : 0 < k
  · simp [hk0]
  · have : k = 0 := by omega
    simp [this]

/-- C3, an example: with session tokens 1 2 3 4 5 of which two are consumed and pending
tokens 3 4 9 9 the walk matches two tokens, stops on the mismatch of 9 with 5, leaves
9 9 pending and truncates the session to its first four tokens. -/
theorem reuse_spec_witness :
    reuse state_c3 = .ok { state_c3 with
      n_past := 4, n_session_consumed := 4, embd := [9, 9], session_tokens := [1, 2, 3, 4] } ∧
    reuse state_c3 = .ok { state_c3 with
      n_past := state_c3.n_past + (2 : Nat)
      n_session_consumed := state_c3.n_session_consumed + (2 : Nat)
      embd := state_c3.embd.drop 2
      session_tokens :=
        if 2 < state_c3.embd.length ∧
          ((2 : Nat) : Int) < state_c3.session_tokens.length - state_c3.n_session_consumed
        then state_c3.session_tokens.take (state_c3.n_session_consumed + (2 : Nat)).toNat
        else state_c3.session_tokens } :=
  ⟨by decide, reuse_spec state_c3 (by decide) (by decide) 2 (by decide)⟩

/-- The comparison loop of lines 463-468, entered with `n_matching_session_tokens = n`,
adds to `n` the length of the longest common prefix of the session tokens still to visit
and `embd_inp[n..]`. -/
theorem matching_loop_eq (embd_inp : List llama_token) (rest : List llama_token) :
    ∀ n : Nat, matching_loop embd_inp rest n =
      n + common_prefix_length rest (embd_inp.drop n) := by
  induction rest with
  | nil => intro n; simp [matching_loop, common_prefix_length]
  | cons id rest ih =>
    intro n
    by_cases hn : n < embd_inp.length
    · have hdrop : embd_inp.drop n = embd_inp[n] :: embd_inp.drop (n + 1) :=
        List.drop_eq_getElem_cons hn
      have hget : embd_inp[n]? = some embd_inp[n] := List.getElem?_eq_getElem hn
      have hle : ¬ (embd_inp.length ≤ n) := by omega
      by_cases he : embd_inp[n] = id
      · simp only [matching_loop, hle, hget, he, hdrop, common_prefix_length, ih (n + 1)]
        simp
        omega
      · have he2 : ¬ (id = embd_inp[n]) := fun h => he h.symm
        simp only [matching_loop, hle, hget, hdrop, common_prefix_length, he2, if_false]
        simp [he]
    · have hnil : embd_inp.drop n = [] := List.drop_eq_nil_of_le (by omega)
      have hle : embd_inp.length ≤ n := by omega
      simp [matching_loop, hle, hnil, common_prefix_length]

/-- The comparison of lines 461-468 yields the length of the longest common prefix of
`session_tokens` and `embd_inp` as they stand when it runs. -/
theorem n_matching_eq (session_tokens embd_inp : List llama_token) :
    n_matching_session_tokens session_tokens embd_inp =
      common_prefix_length session_tokens embd_inp := by
  unfold n_matching_session_tokens
  split
  · simp [matching_loop_eq]
  · rename_i h
    have : session_tokens = [] := by
      cases session_tokens with
      | nil => rfl
      | cons a l => simp at h
    simp [this, common_prefix_length]

/-- The longest common prefix of a sequence and an extension of it is the sequence. -/
theorem common_prefix_length_append (a c : List llama_token) :
    common_prefix_length a (a ++ c) = a.length := by
  induction a with
  | nil => simp [common_prefix_length]
  | cons x xs ih => simp [common_prefix_length, ih]

/-- C7 on the code: a start-up that loads the session tokens 198, 128006 and tokenizes
the prompt to 128000, 128006, 9125 computes `n_matching_session_tokens = 2`, whereas the
session and the prompt have no common prefix: the loaded tokens were written over the
first entries of `embd_inp` (lines 421-423) before the comparison (lines 461-468). -/
theorem startup_n_matching_overwritten :
    startup_n_matching "talk.session" (.loaded [198, 128006]) [128000, 128006, 9125] true
      = .ok 2 ∧
    common_prefix_length [198, 128006] [128000, 128006, 9125] = 0 := by
  decide

/-- C8. For token sequences `A`, `B` with `A` a prefix of `B`: a start-up with a session
path configured that loads a session whose tokens are `A` and tokenizes the prompt to `B`
computes `n_matching_session_tokens = |A|`. -/
theorem startup_n_matching_extended (path_session : String) (A B : List llama_token)
    (hpath : path_session ≠ "") (hAB : A <+: B) :
    startup_n_matching path_session (.loaded A) B true = .ok A.length := by
  obtain ⟨c, rfl⟩ := hAB
  have hlen : ¬ ((A ++ c).length < A.length) := by simp
  simp only [startup_n_matching, load_session, hpath, ne_eq, not_false_eq_true, if_true, hlen,
    if_false, List.drop_left, n_matching_eq, common_prefix_length_append]

/-- C8, examples: a proper prefix, the empty session and the session equal to the
prompt. -/
theorem startup_n_matching_extended_witness :
    startup_n_matching "talk.session" (.loaded [1, 2]) [1, 2, 3] true = .ok 2 ∧
    startup_n_matching "talk.session" (.loaded []) [1, 2, 3] true = .ok 0 ∧
    startup_n_matching "talk.session" (.loaded [1, 2, 3]) [1, 2, 3] true = .ok 3 :=
  ⟨startup_n_matching_extended "talk.session" [1, 2] [1, 2, 3] (by decide) (by decide),
   startup_n_matching_extended "talk.session" [] [1, 2, 3] (by decide) (by decide),
   startup_n_matching_extended "talk.session" [1, 2, 3] [1, 2, 3] (by decide) (by decide)⟩

/-- C9 as stated fails: with a session path configured, a prompt of 3 tokens and 2
matching tokens, the match covers less than 75% of the prompt (`4 * 2 < 3 * 3`) and yet
`need_to_save_session` is initialised to `false`, because `3 * 3 / 4` is rounded down
to 2. -/
theorem initial_need_to_save_session_counterexample :
    ¬ (initial_need_to_save_session "talk.session" 2 3 = true ↔ 4 * 2 < 3 * 3) := by
  decide

/-- C9 amended. With a session path configured, for every prompt length `L` and match
count `n`, `need_to_save_session` is initialised to `true` exactly when `n` is below
`3 * L / 4` rounded down, that is when `4 * (n + 1) <= 3 * L`; hence it is `false` whenever
the match covers at least 75% of the prompt (`3 * L <= 4 * n`). -/
theorem initial_need_to_save_session_spec (path_session : String) (n L : Nat)
    (hpath : path_session ≠ "") :
    (initial_need_to_save_session path_session n L = true ↔ n < L * 3 / 4) ∧
    (initial_need_to_save_session path_session n L = true ↔ 4 * (n + 1) ≤ 3 * L) ∧
    (3 * L ≤ 4 * n → initial_need_to_save_session path_session n L = false) := by
  have h1 : initial_need_to_save_session path_session n L = true ↔ n < L * 3 / 4 := by
    simp [initial_need_to_save_session, hpath]
  have h2 : n < L * 3 / 4 ↔ 4 * (n + 1) ≤ 3 * L := by omega
  refine ⟨h1, h1.trans h2, ?_⟩
  intro h3
  have : ¬ (n < L * 3 / 4) := by omega
  cases hb : initial_need_to_save_session path_session n L
  · rfl
  · exact absurd (h1.mp hb) this

/-- C9 amended, examples: 2 of 4 tokens matched gives `true`, 3 of 4 gives `false`. -/
theorem initial_need_to_save_session_spec_witness :
    initial_need_to_save_session "talk.session" 2 4 = true ∧
    initial_need_to_save_session "talk.session" 3 4 = false ∧
    ((initial_need_to_save_session "talk.session" 2 4 = true ↔ 2 < 4 * 3 / 4) ∧
     (initial_need_to_save_session "talk.session" 2 4 = true ↔ 4 * (2 + 1) ≤ 3 * 4) ∧
     (3 * 4 ≤ 4 * 2 → initial_need_to_save_session "talk.session" 2 4 = false)) :=
  ⟨by decide, by decide, initial_need_to_save_session_spec "talk.session" 2 4 (by decide)⟩

/-- The overflow handling leaves the history, the session tokens, the constants and the
save log alone, and can only empty `path_session`. -/
theorem overflow_frame (s s1 : State) (h : overflow s = .ok s1) :
    s1.embd_inp = s.embd_inp ∧ s1.n_keep = s.n_keep ∧ s1.session_tokens = s.session_tokens ∧
    s1.saved = s.saved ∧ (s.path_session = "" → s1.path_session = "") := by
  unfold overflow at h
  split at h
  · split at h
    · cases h; simp
    · cases h
  · cases h; simp

/-- The loop of the walk can only shorten `session_tokens`. -/
theorem walk_loop_shortens (es : List llama_token) :
    ∀ w w1 : Walk, walk_loop es w = .ok w1 → w1.session_tokens <+: w.session_tokens := by
  induction es with
  | nil => intro w w1 h; simp only [walk_loop] at h; cases h; exact List.prefix_refl _
  | cons e rest ih =>
    intro w w1 h
    simp only [walk_loop] at h
    split at h
    · cases h
    · rename_i hb
      split at h
      · cases h
        have hle : w.n_session_consumed.toNat ≤ w.session_tokens.length := by omega
        simp only [resize, Nat.sub_eq_zero_of_le hle, List.replicate_zero, List.append_nil]
        exact List.take_prefix _ _
      · split at h
        · cases h; exact List.prefix_refl _
        · exact ih ⟨w.i + 1, w.n_past + 1, w.n_session_consumed + 1, w.session_tokens⟩ w1 h

/-- The walk leaves the history, the constants, `path_session` and the save log alone, and
can only shorten `session_tokens`. -/
theorem reuse_frame (s s1 : State) (h : reuse s = .ok s1) :
    s1.embd_inp = s.embd_inp ∧ s1.n_keep = s.n_keep ∧ s1.session_tokens <+: s.session_tokens ∧
    s1.saved = s.saved ∧ s1.path_session = s.path_session := by
  unfold reuse at h
  split at h
  · split at h
    · cases h
    · rename_i w hw
      cases h
      exact ⟨rfl, rfl, walk_loop_shortens _ _ _ hw, rfl, rfl⟩
  · cases h
    exact ⟨rfl, rfl, List.prefix_refl _, rfl, rfl⟩

/-- The block of lines 638-700 leaves the history, the constants and the save log alone;
with `path_session` empty it keeps it empty and can only shorten `session_tokens`. -/
theorem predict_frame (ok : Bool) (s s1 : State) (h : predict ok s = .ok s1) :
    s1.embd_inp = s.embd_inp ∧ s1.n_keep = s.n_keep ∧ s1.saved = s.saved ∧
    (s.path_session = "" → s1.path_session = "" ∧ s1.session_tokens <+: s.session_tokens) := by
  unfold predict at h
  split at h
  · split at h
    · cases h
    · rename_i s2 h2
      split at h
      · cases h
      · rename_i s3 h3
        obtain ⟨a1, a2, a3, a4, a5⟩ := overflow_frame _ _ h2
        obtain ⟨b1, b2, b3, b4, b5⟩ := reuse_frame _ _ h3
        unfold decode at h
        split at h
        · cases h
          refine ⟨?_, ?_, ?_, ?_⟩
          · simp only [record]; split <;> simp [a1, b1]
          · simp only [record]; split <;> simp [a2, b2]
          · simp only [record]; split <;> simp [a4, b4]
          · intro hp
            have hp3 : s3.path_session = "" := by rw [b5]; exact a5 hp
            have hr : record s3 = s3 := by simp [record, hp3]
            rw [hr]
            exact ⟨hp3, by rw [← a3]; exact b3⟩
        · cases h
  · cases h
    exact ⟨rfl, rfl, rfl, fun hp => ⟨hp, List.prefix_refl _⟩⟩

/-- One pass of the text-inference loop only appends to the history and keeps `n_keep`;
entered with `path_session` empty it keeps it empty, saves nothing and can only shorten
`session_tokens`. -/
theorem iteration_frame (v : Vocab) (inp : Input) (s s1 : State) (b : Bool)
    (h : iteration v inp s = .ok (s1, b)) :
    s.embd_inp <+: s1.embd_inp ∧ s1.n_keep = s.n_keep ∧
    (s.path_session = "" →
      s1.path_session = "" ∧ s1.saved = s.saved ∧ s1.session_tokens <+: s.session_tokens) := by
  unfold iteration at h
  split at h
  · cases h
  · rename_i s2 h2
    obtain ⟨a1, a2, a3, a4⟩ := predict_frame _ _ _ h2
    simp only at h
    split at h
    · cases h
      refine ⟨?_, ?_, ?_⟩
      · simp [commit, a1]
      · simp [commit, a2]
      · intro hp
        obtain ⟨c1, c2⟩ := a4 hp
        exact ⟨by simp [commit, c1], by simp [commit, a3], by simpa [commit] using c2⟩
    · cases h
      have hsave : ∀ t : State, (save_session t).embd_inp = t.embd_inp ∧
          (save_session t).n_keep = t.n_keep ∧
          (save_session t).session_tokens = t.session_tokens ∧
          (save_session t).path_session = t.path_session ∧
          (t.path_session = "" → (save_session t).saved = t.saved) := by
        intro t
        simp only [save_session]
        split
        · rename_i hc
          exact ⟨rfl, rfl, rfl, rfl, fun hp => absurd hp hc.1⟩
        · exact ⟨rfl, rfl, rfl, rfl, fun _ => rfl⟩
      have hacc : ∀ t : State, (accept v inp.id t).embd_inp = t.embd_inp ∧
          (accept v inp.id t).n_keep = t.n_keep ∧
          (accept v inp.id t).session_tokens = t.session_tokens ∧
          (accept v inp.id t).path_session = t.path_session ∧
          (accept v inp.id t).saved = t.saved := by
        intro t
        simp only [accept]
        split <;> exact ⟨rfl, rfl, rfl, rfl, rfl⟩
      obtain ⟨d1, d2, d3, d4, d5⟩ := hsave (commit s2)
      obtain ⟨e1, e2, e3, e4, e5⟩ := hacc (save_session (commit s2))
      refine ⟨?_, ?_, ?_⟩
      · rw [e1, d1]; simp [commit, a1]
      · rw [e2, d2]; simp [commit, a2]
      · intro hp
        obtain ⟨c1, c2⟩ := a4 hp
        have hc : (commit s2).path_session = "" := by simp [commit, c1]
        refine ⟨by rw [e4, d4]; exact hc, ?_, ?_⟩
        · rw [e5, d5 hc]; simp [commit, a3]
        · rw [e3, d3]; simpa [commit] using c2

/-- Opening a turn leaves the history, `n_keep`, `path_session` and the save log alone;
with `path_session` empty it leaves `session_tokens` alone as well. -/
theorem begin_turn_frame (tokens embd : List llama_token) (s : State) :
    (begin_turn tokens embd s).embd_inp = s.embd_inp ∧
    (begin_turn tokens embd s).n_keep = s.n_keep ∧
    (begin_turn tokens embd s).path_session = s.path_session ∧
    (begin_turn tokens embd s).saved = s.saved ∧
    (s.path_session = "" → (begin_turn tokens embd s).session_tokens = s.session_tokens) := by
  refine ⟨rfl, rfl, rfl, rfl, ?_⟩
  intro hp
  simp [begin_turn, hp]

/-- Start-up fixes `n_keep` to the length of the history. -/
theorem startup_n_keep (n_ctx : Int) (n_prev : Nat) (path_session : String)
    (file : SessionFile) (prompt : List llama_token) (ok : Bool) (s : State)
    (h : startup n_ctx n_prev path_session file prompt ok = .ok s) :
    s.n_keep = s.embd_inp.length := by
  unfold startup at h
  split at h
  · cases h
  · split at h
    · cases h; rfl
    · cases h

/-- The start-up and the two moves of the running example. -/
theorem demo_run :
    startup 60 10 "talk.session" .absent (tokens_from 100 50) true = .ok demo0 ∧
    iteration vocab0 ⟨true, 7, true⟩ (begin_turn [9] (tokens_from 500 20) demo0)
      = .ok (demo1, true) ∧
    iteration vocab0 ⟨true, 198, true⟩ demo1 = .ok (demo2, true) := by
  decide

/-- One move only appends to the history and keeps `n_keep`; made with `path_session`
empty it keeps it empty, saves nothing and can only shorten `session_tokens`. -/
theorem step_frame (v : Vocab) (p q : Bool × State) (h : Step v p q) :
    p.2.embd_inp <+: q.2.embd_inp ∧ q.2.n_keep = p.2.n_keep ∧
    (p.2.path_session = "" →
      q.2.path_session = "" ∧ q.2.saved = p.2.saved ∧
      q.2.session_tokens <+: p.2.session_tokens) := by
  cases h with
  | turn tokens embd s hne =>
    obtain ⟨a1, a2, a3, a4, a5⟩ := begin_turn_frame tokens embd s
    refine ⟨?_, a2, ?_⟩
    · show s.embd_inp <+: (begin_turn tokens embd s).embd_inp
      rw [a1]
    · intro hp
      refine ⟨?_, a4, ?_⟩
      · show (begin_turn tokens embd s).path_session = ""
        rw [a3]; exact hp
      · show (begin_turn tokens embd s).session_tokens <+: s.session_tokens
        rw [a5 hp]
  | pass inp s s1 b hit => exact iteration_frame v inp s s1 b hit

/-- C5. The history is append-only in the conversation loop: over any number of moves
(turns opened and passes of the text-inference loop, with or without overflow) the history
before is a prefix of the history after and `n_keep` keeps its value, so every leading
segment of the history is preserved; in particular, counted from a start-up, the first
`n_keep` tokens of the history are at every later point the history that start-up left. -/
theorem history_append_only (v : Vocab) (p q : Bool × State) (h : Steps v p q) :
    p.2.embd_inp <+: q.2.embd_inp ∧ q.2.n_keep = p.2.n_keep ∧
    (∀ n : Nat, n ≤ p.2.embd_inp.length → q.2.embd_inp.take n = p.2.embd_inp.take n) ∧
    (∀ (n_ctx : Int) (n_prev : Nat) (path_session : String) (file : SessionFile)
      (prompt : List llama_token) (ok : Bool),
      startup n_ctx n_prev path_session file prompt ok = .ok p.2 →
      q.2.embd_inp.take q.2.n_keep.toNat = p.2.embd_inp) := by
  have key : p.2.embd_inp <+: q.2.embd_inp ∧ q.2.n_keep = p.2.n_keep := by
    induction h with
    | refl => exact ⟨List.prefix_refl _, rfl⟩
    | tail _ hstep ih =>
      obtain ⟨a1, a2, _⟩ := step_frame v _ _ hstep
      exact ⟨ih.1.trans a1, a2.trans ih.2⟩
  have htake : ∀ n : Nat, n ≤ p.2.embd_inp.length →
      q.2.embd_inp.take n = p.2.embd_inp.take n := by
    intro n hn
    obtain ⟨c, hc⟩ := key.1
    rw [← hc, List.take_append_of_le_length hn]
  refine ⟨key.1, key.2, htake, ?_⟩
  intro n_ctx n_prev path_session file prompt ok hs
  have hk := startup_n_keep _ _ _ _ _ _ _ hs
  rw [key.2, hk, Int.toNat_ofNat, htake _ (le_refl _), List.take_length]

/-- C5, an example: from the start-up state `demo0` (prompt of 50 tokens, `n_ctx = 60`) a
turn of 20 tokens and two passes, each with an overflow, lead to `demo2`, whose history of
91 tokens begins with the 50 tokens of the prompt. -/
theorem history_append_only_witness :
    demo2.embd_inp.length = 91 ∧ demo2.embd_inp.take 50 = demo0.embd_inp ∧
    demo2.path_session = "" ∧
    (demo0.embd_inp <+: demo2.embd_inp ∧ demo2.n_keep = demo0.n_keep ∧
    (∀ n : Nat, n ≤ demo0.embd_inp.length → demo2.embd_inp.take n = demo0.embd_inp.take n) ∧
    (∀ (n_ctx : Int) (n_prev : Nat) (path_session : String) (file : SessionFile)
      (prompt : List llama_token) (ok : Bool),
      startup n_ctx n_prev path_session file prompt ok = .ok demo0 →
      demo2.embd_inp.take demo2.n_keep.toNat = demo0.embd_inp)) :=
  ⟨by decide, by decide, by decide,
    history_append_only vocab0 (false, demo0) (true, demo2)
      (Relation.ReflTransGen.head (Step.turn [9] (tokens_from 500 20) demo0 (by decide))
        (Relation.ReflTransGen.head
          (Step.pass ⟨true, 7, true⟩ (begin_turn [9] (tokens_from 500 20) demo0) demo1 true
            (by decide))
          (Relation.ReflTransGen.single
            (Step.pass ⟨true, 198, true⟩ demo1 demo2 true (by decide)))))⟩

/-- C6. Once `path_session` is empty it is empty at every later point of the run,
whatever turns, passes and overflows follow; from then on no session is saved (the save
log does not grow) and nothing is appended to `session_tokens` (it only ever becomes a
prefix of what it was). -/
theorem path_session_stays_empty (v : Vocab) (p q : Bool × State) (h : Steps v p q)
    (hempty : p.2.path_session = "") :
    q.2.path_session = "" ∧ q.2.saved = p.2.saved ∧
    q.2.session_tokens <+: p.2.session_tokens := by
  induction h with
  | refl => exact ⟨hempty, rfl, List.prefix_refl _⟩
  | tail _ hstep ih =>
    obtain ⟨b1, b2, b3⟩ := ih
    obtain ⟨_, _, a3⟩ := step_frame v _ _ hstep
    obtain ⟨c1, c2, c3⟩ := a3 b1
    exact ⟨c1, c2.trans b2, c3.trans b3⟩

/-- C6, an example: `path_session` is empty in `demo1`, after the first overflow; the pass
that leads to `demo2` overflows again and samples the token that ends the turn, and
`path_session` is still empty and nothing was saved. -/
theorem path_session_stays_empty_witness :
    demo0.path_session = "talk.session" ∧ demo1.path_session = "" ∧
    (demo2.path_session = "" ∧ demo2.saved = demo1.saved ∧
      demo2.session_tokens <+: demo1.session_tokens) :=
  ⟨by decide, by decide,
    path_session_stays_empty vocab0 (true, demo1) (true, demo2)
      (Relation.ReflTransGen.single
        (Step.pass ⟨true, 198, true⟩ demo1 demo2 true (by decide)))
      (by decide)⟩

/-- The loop of the walk advances `n_past` by the number of pending tokens it passes. -/
theorem walk_loop_count (es : List llama_token) :
    ∀ w w1 : Walk, walk_loop es w = .ok w1 →
      w.i ≤ w1.i ∧ w1.i - w.i ≤ es.length ∧ w1.n_past = w.n_past + ((w1.i - w.i : Nat) : Int) := by
  induction es with
  | nil =>
    intro w w1 h
    simp only [walk_loop] at h
    cases h
    simp
  | cons e rest ih =>
    intro w w1 h
    simp only [walk_loop] at h
    split at h
    · cases h
    · split at h
      · cases h; simp
      · split at h
        · cases h; simp
        · obtain ⟨a1, a2, a3⟩ :=
            ih ⟨w.i + 1, w.n_past + 1, w.n_session_consumed + 1, w.session_tokens⟩ w1 h
          simp only at a1 a2 a3
          refine ⟨by omega, by simp only [List.length_cons]; omega, ?_⟩
          rw [a3]
          omega

/-- The walk keeps the sum of `n_past` and the number of pending tokens. -/
theorem reuse_count (s s1 : State) (h : reuse s = .ok s1) :
    s1.n_past + s1.embd.length = s.n_past + s.embd.length ∧ s1.decoded = s.decoded := by
  unfold reuse at h
  split at h
  · split at h
    · cases h
    · rename_i w hw
      cases h
      obtain ⟨a1, a2, a3⟩ := walk_loop_count _ _ _ hw
      simp only at a1 a2 a3
      refine ⟨?_, rfl⟩
      by_cases hi : 0 < w.i
      · simp only [hi, if_true, List.length_drop, a3]
        omega
      · have : w.i = 0 := by omega
        simp only [hi, if_false, a3, this]
        simp
  · cases h
    exact ⟨rfl, rfl⟩

/-- The batch of a pass. When the block of lines 638-700 runs with pending tokens it calls
`llama_decode` once, with the final `n_past` and `embd`; `n_past` plus the batch size is
`n_past + |embd|` as they were on entry when there was no overflow, and
`n_keep + n_prev + |embd|` when there was one: the overflow handling does not look at
`n_ctx` again. -/
theorem predict_batch (s s1 : State) (hne : 0 < s.embd.length)
    (h : predict true s = .ok s1) :
    s1.decoded = s.decoded ++ [(s1.n_past, s1.embd)] ∧
    s1.n_past + s1.embd.length =
      (if s.n_past + s.embd.length > s.n_ctx then s.n_keep + s.n_prev + s.embd.length
       else s.n_past + s.embd.length) := by
  unfold predict at h
  rw [if_pos hne] at h
  split at h
  · cases h
  · rename_i s2 h2
    split at h
    · cases h
    · rename_i s3 h3
      obtain ⟨b1, b2⟩ := reuse_count _ _ h3
      simp only [decode, if_true] at h
      cases h
      have hrec : (record s3).n_past = s3.n_past ∧ (record s3).embd = s3.embd ∧
          (record s3).decoded = s3.decoded := by
        simp only [record]; split <;> exact ⟨rfl, rfl, rfl⟩
      obtain ⟨r1, r2, r3⟩ := hrec
      simp only [r1, r2, r3, b1, b2]
      unfold overflow at h2
      split at h2
      · rename_i hov
        split at h2
        · rename_i hprev
          cases h2
          simp only [hov, if_true, List.length_append, List.length_drop, true_and]
          push_cast
          omega
        · cases h2
      · rename_i hov
        cases h2
        simp [hov]

/-- The prompt `long_prompt` has 2040 tokens. -/
theorem long_prompt_length : long_prompt.length = 2040 :=
  List.length_replicate 2040 7

/-- There are `n` tokens in `tokens_from a n`. -/
theorem tokens_from_length (a : Int) (n : Nat) : (tokens_from a n).length = n := by
  unfold tokens_from
  rw [List.length_map, List.length_range]

/-- C2 on the code. With the constants of the program (`n_ctx = 2048`, `n_prev = 64`) and
a prompt of 2040 tokens, so that `n_keep <= n_ctx`, the first pass of a turn of 12 pending
tokens overflows, and after the overflow handling `llama_decode` is called with
`n_past = 2040` and a batch of 64 + 12 = 76 tokens: `n_past` plus the batch size is
2116, above `n_ctx = 2048`, the positions 2048 to 2115 of the batch are outside the
context, and `n_past` is 2116 once the batch is counted. -/
theorem decode_beyond_context :
    startup 2048 64 "" .absent long_prompt true = .ok long0 ∧
    long0.n_keep ≤ long0.n_ctx ∧
    iteration vocab0 ⟨true, 5, true⟩ (begin_turn [9] (tokens_from 300 12) long0)
      = .ok (long1, true) ∧
    long1.decoded.getLast? = some (2040, long_prompt.drop 1976 ++ tokens_from 300 12) ∧
    (2040 : Int) + ((long_prompt.drop 1976 ++ tokens_from 300 12).length : Int) = 2116 ∧
    long1.n_ctx = 2048 ∧ long1.n_past = 2116 := by
  have hlen := long_prompt_length
  have hturn := tokens_from_length 300 12
  refine ⟨?_, by decide, ?_, ?_, ?_, rfl, rfl⟩
  · simp [startup, load_session, long0, hlen, initial_need_to_save_session]
  · simp [iteration, predict, begin_turn, overflow, reuse, record, decode, commit,
      save_session, accept, long0, long1, hlen, hturn, vocab0]
  · simp [long1]
  · simp [hlen, hturn]

/-- C4 on the code. On a first run (a session path is configured and no session file
exists) the state `first1` is reached after the first pass of the first turn. There
`n_session_consumed = 12`, and already at index 0 the session tokens and the history
differ: `session_tokens[0] = 198`, the first token of the turn, and `embd_inp[0] = 128000`,
the first token of the prompt, which was never put into `session_tokens`. -/
theorem session_prefix_broken :
    Reach vocab0 (true, first1) ∧
    first1.n_session_consumed = 12 ∧
    first1.session_tokens[0]? = some 198 ∧ first1.embd_inp[0]? = some 128000 ∧
    ¬ (∀ i : Nat, (i : Int) < first1.n_session_consumed →
        first1.session_tokens[i]? = first1.embd_inp[i]?) := by
  refine ⟨⟨2048, 64, "talk.session", .absent, first_prompt, true, first0, by decide, ?_⟩,
    by decide, by decide, by decide, ?_⟩
  · exact Relation.ReflTransGen.head (Step.turn first_tokens first_embd first0 (by decide))
      (Relation.ReflTransGen.single
        (Step.pass ⟨true, 13347, true⟩ (begin_turn first_tokens first_embd first0) first1 true
          (by decide)))
  · intro h
    exact absurd (h 0 (by decide)) (by decide)

/-- C10 on the code. On a first run (a session path is configured and no session file
exists) the first pass of the first turn reaches line 719 in the state `first_at_save` and
performs a save. The sequence handed to `llama_state_save_file` is `session_tokens`, the 12
tokens of the turn, and not the history, which then holds the 4 tokens of the prompt
followed by those 12 tokens. -/
theorem save_hands_session_tokens :
    startup 2048 64 "talk.session" .absent first_prompt true = .ok first0 ∧
    predict true (begin_turn first_tokens first_embd first0) = .ok first_decoded ∧
    commit first_decoded = first_at_save ∧
    (save_session first_at_save).saved = [first_embd] ∧
    first_at_save.embd_inp = first_prompt ++ first_embd ∧
    iteration vocab0 ⟨true, 13347, true⟩ (begin_turn first_tokens first_embd first0)
      = .ok (first1, true) ∧
    first1.saved = [first_embd] ∧ first1.embd_inp = first_prompt ++ first_embd ∧
    first1.saved ≠ [first1.embd_inp] := by
  decide

/-- The walk in a state with `0 <= n_session_consumed <= |session_tokens|`: it makes no
read outside `session_tokens`, it keeps the two bounds, and when it is over the pending
sequence is empty or `n_session_consumed = |session_tokens|`. -/
theorem reuse_bounds (s : State) (h0 : 0 ≤ s.n_session_consumed)
    (h1 : s.n_session_consumed ≤ s.session_tokens.length) :
    ∃ s1 : State, reuse s = .ok s1 ∧
      0 ≤ s1.n_session_consumed ∧ s1.n_session_consumed ≤ s1.session_tokens.length ∧
      (s1.embd = [] ∨ s1.n_session_consumed = s1.session_tokens.length) := by
  by_cases hlt : s.n_session_consumed < s.session_tokens.length
  · obtain ⟨n, hn⟩ := Int.eq_ofNat_of_zero_le h0
    have hn' : n < s.session_tokens.length := by omega
    have hw := walk_loop_eq s.embd 0 s.n_past n s.session_tokens hn'
    obtain ⟨_, hk1, hk2, _⟩ := common_prefix_length_spec s.embd (s.session_tokens.drop n)
    rw [List.length_drop] at hk2
    generalize common_prefix_length s.embd (s.session_tokens.drop n) = k at hw hk1 hk2
    have hlt' : (n : Int) < (s.session_tokens.length : Int) := by omega
    have hre : reuse s = .ok { s with
        n_past := s.n_past + k
        n_session_consumed := (n : Int) + k
        session_tokens :=
          if k < s.embd.length ∧ k < s.session_tokens.length - n
          then s.session_tokens.take (n + k) else s.session_tokens
        embd := if 0 < 0 + k then s.embd.drop (0 + k) else s.embd } := by
      simp only [reuse, hn, hlt', if_true, hw]
    refine ⟨_, hre, ?_, ?_, ?_⟩
    · show (0 : Int) ≤ (n : Int) + k
      omega
    · show ((n : Int) + k) ≤ ((if k < s.embd.length ∧ k < s.session_tokens.length - n
          then s.session_tokens.take (n + k) else s.session_tokens).length : Int)
      split
      · rw [List.length_take]; omega
      · omega
    · show (if 0 < 0 + k then s.embd.drop (0 + k) else s.embd) = [] ∨
          ((n : Int) + k) = ((if k < s.embd.length ∧ k < s.session_tokens.length - n
          then s.session_tokens.take (n + k) else s.session_tokens).length : Int)
      by_cases hke : k < s.embd.length
      · right
        by_cases hks : k < s.session_tokens.length - n
        · rw [if_pos ⟨hke, hks⟩, List.length_take]; omega
        · rw [if_neg (fun h => hks h.2)]; omega
      · left
        have hk : k = s.embd.length := by omega
        by_cases hpos : 0 < 0 + k
        · rw [if_pos hpos, hk]; simp
        · rw [if_neg hpos]
          have : s.embd.length = 0 := by omega
          exact List.length_eq_zero.mp this
  · have heq : s.n_session_consumed = s.session_tokens.length := by omega
    exact ⟨s, by simp [reuse, hlt], h0, h1, Or.inr heq⟩

/-- The overflow handling does not touch `n_session_consumed` and `session_tokens`. -/
theorem overflow_session (s s1 : State) (h : overflow s = .ok s1) :
    s1.n_session_consumed = s.n_session_consumed ∧ s1.session_tokens = s.session_tokens := by
  unfold overflow at h
  split at h
  · split at h
    · cases h; exact ⟨rfl, rfl⟩
    · cases h
  · cases h; exact ⟨rfl, rfl⟩

/-- Start-up establishes `0 <= n_session_consumed <= |session_tokens|`. -/
theorem startup_bounds (n_ctx : Int) (n_prev : Nat) (path_session : String)
    (file : SessionFile) (prompt : List llama_token) (ok : Bool) (s : State)
    (h : startup n_ctx n_prev path_session file prompt ok = .ok s) :
    0 ≤ s.n_session_consumed ∧ s.n_session_consumed ≤ s.session_tokens.length := by
  unfold startup at h
  split at h
  · cases h
  · split at h
    · cases h
      simp only
      split <;> constructor <;> omega
    · cases h

/-- One move keeps `0 <= n_session_consumed <= |session_tokens|`. -/
theorem step_bounds (v : Vocab) (p q : Bool × State) (h : Step v p q)
    (hp : 0 ≤ p.2.n_session_consumed ∧ p.2.n_session_consumed ≤ p.2.session_tokens.length) :
    0 ≤ q.2.n_session_consumed ∧ q.2.n_session_consumed ≤ q.2.session_tokens.length := by
  cases h with
  | turn tokens embd s hne =>
    obtain ⟨h0, h1⟩ := hp
    simp only at h0 h1
    simp only [begin_turn]
    refine ⟨h0, ?_⟩
    split
    · rw [List.length_append]; push_cast; omega
    · exact h1
  | pass inp s s1 b hit =>
    obtain ⟨h0, h1⟩ := hp
    simp only at h0 h1
    unfold iteration at hit
    split at hit
    · cases hit
    · rename_i sp hsp
      have hpred : 0 ≤ sp.n_session_consumed ∧
          sp.n_session_consumed ≤ sp.session_tokens.length := by
        unfold predict at hsp
        split at hsp
        · split at hsp
          · cases hsp
          · rename_i so hso
            obtain ⟨o1, o2⟩ := overflow_session _ _ hso
            split at hsp
            · cases hsp
            · rename_i sr hsr
              obtain ⟨sr1, e1, r0, r1, _⟩ := reuse_bounds so (by rw [o1]; exact h0)
                (by rw [o1, o2]; exact h1)
              rw [hsr] at e1
              cases e1
              unfold decode at hsp
              split at hsp
              · cases hsp
                simp only [record]
                split
                · simp only; constructor <;> omega
                · exact ⟨r0, r1⟩
              · cases hsp
        · cases hsp; exact ⟨h0, h1⟩
      simp only at hit
      split at hit
      · cases hit; exact hpred
      · cases hit
        simp only [accept, save_session, commit]
        split <;> split <;> exact hpred

/-- C18. At every point reachable from a start-up, at the head of the main loop or of a
pass of the text-inference loop, `0 <= n_session_consumed <= |session_tokens|`. Hence in
the pass that starts there the walk (entered after the overflow handling, state `s1`)
reads `session_tokens[n_session_consumed]` only inside the vector: it ends without a
fault, and when it is over the pending sequence is empty or
`n_session_consumed = |session_tokens|`. -/
theorem session_consumed_bounds (v : Vocab) (b : Bool) (s : State) (h : Reach v (b, s)) :
    0 ≤ s.n_session_consumed ∧ s.n_session_consumed ≤ s.session_tokens.length ∧
    ∀ s1 : State, overflow s = .ok s1 →
      ∃ s2 : State, reuse s1 = .ok s2 ∧
        (s2.embd = [] ∨ s2.n_session_consumed = s2.session_tokens.length) := by
  obtain ⟨n_ctx, n_prev, path, file, prompt, ok, s0, hs0, hsteps⟩ := h
  have hinv : ∀ q : Bool × State, Steps v (false, s0) q →
      0 ≤ q.2.n_session_consumed ∧ q.2.n_session_consumed ≤ q.2.session_tokens.length := by
    intro q hq
    induction hq with
    | refl => exact startup_bounds _ _ _ _ _ _ _ hs0
    | tail _ hstep ih => exact step_bounds v _ _ hstep ih
  obtain ⟨h0, h1⟩ := hinv _ hsteps
  refine ⟨h0, h1, ?_⟩
  intro s1 hov
  obtain ⟨o1, o2⟩ := overflow_session _ _ hov
  obtain ⟨s2, e, _, _, hend⟩ := reuse_bounds s1 (by rw [o1]; exact h0)
    (by rw [o1, o2]; exact h1)
  exact ⟨s2, e, hend⟩

/-- The first run reaches the head of the first pass of its first turn. -/
theorem first_turn_reach :
    Reach vocab0 (true, begin_turn first_tokens first_embd first0) :=
  ⟨2048, 64, "talk.session", .absent, first_prompt, true, first0, by decide,
    Relation.ReflTransGen.single (Step.turn first_tokens first_embd first0 (by decide))⟩

/-- C18, an example: at the head of the first pass of the first turn of a first run one
session token is recorded and none is consumed; the walk stops on a mismatch at once and
leaves `n_session_consumed = |session_tokens| = 0`. -/
theorem session_consumed_bounds_witness :
    (begin_turn first_tokens first_embd first0).n_session_consumed = 0 ∧
    (begin_turn first_tokens first_embd first0).session_tokens = [15339] ∧
    reuse (begin_turn first_tokens first_embd first0) =
      .ok { begin_turn first_tokens first_embd first0 with session_tokens := [] } ∧
    (0 ≤ (begin_turn first_tokens first_embd first0).n_session_consumed ∧
     (begin_turn first_tokens first_embd first0).n_session_consumed ≤
       (begin_turn first_tokens first_embd first0).session_tokens.length ∧
     ∀ s1 : State, overflow (begin_turn first_tokens first_embd first0) = .ok s1 →
      ∃ s2 : State, reuse s1 = .ok s2 ∧
        (s2.embd = [] ∨ s2.n_session_consumed = s2.session_tokens.length)) :=
  ⟨by decide, by decide, by decide,
    session_consumed_bounds vocab0 true (begin_turn first_tokens first_embd first0)
      first_turn_reach⟩

/-- The block of lines 638-700 does not touch `done` and `text_to_speak`. -/
theorem predict_turn_locals (ok : Bool) (s s1 : State) (h : predict ok s = .ok s1) :
    s1.done = s.done ∧ s1.text_to_speak = s.text_to_speak := by
  unfold predict at h
  split at h
  · split at h
    · cases h
    · rename_i so hso
      have ho : so.done = s.done ∧ so.text_to_speak = s.text_to_speak := by
        unfold overflow at hso
        split at hso
        · split at hso
          · cases hso; exact ⟨rfl, rfl⟩
          · cases hso
        · cases hso; exact ⟨rfl, rfl⟩
      split at h
      · cases h
      · rename_i sr hsr
        have hr : sr.done = so.done ∧ sr.text_to_speak = so.text_to_speak := by
          unfold reuse at hsr
          split at hsr
          · split at hsr
            · cases hsr
            · cases hsr; exact ⟨rfl, rfl⟩
          · cases hsr; exact ⟨rfl, rfl⟩
        unfold decode at h
        split at h
        · cases h
          simp only [record]
          split
          · exact ⟨hr.1.trans ho.1, hr.2.trans ho.2⟩
          · exact ⟨hr.1.trans ho.1, hr.2.trans ho.2⟩
        · cases h
  · cases h; exact ⟨rfl, rfl⟩

/-- A pass entered with `done = false` asks the sampler, and hands the token to line 761
in a state `t` with no pending tokens, `done = false` and the `text_to_speak` of entry. -/
theorem iteration_samples (v : Vocab) (inp : Input) (s s1 : State) (b : Bool)
    (hd : s.done = false) (h : iteration v inp s = .ok (s1, b)) :
    ∃ t : State, t.embd = [] ∧ t.done = false ∧ t.text_to_speak = s.text_to_speak ∧
      s1 = accept v inp.id t ∧ b = inp.is_running := by
  unfold iteration at h
  split at h
  · cases h
  · rename_i sp hsp
    obtain ⟨p1, p2⟩ := predict_turn_locals _ _ _ hsp
    have hc : (commit sp).done = false := by simp [commit, p1, hd]
    simp only [hc] at h
    cases h
    refine ⟨save_session (commit sp), ?_, ?_, ?_, rfl, rfl⟩
    · simp only [save_session]; split <;> rfl
    · simp only [save_session]; split <;> exact hc
    · simp only [save_session]; split <;> simp [commit, p2]

/-- A pass entered with `done = true` leaves the loop without sampling and without
touching `text_to_speak`. -/
theorem iteration_done (v : Vocab) (inp : Input) (s s1 : State) (b : Bool)
    (hd : s.done = true) (h : iteration v inp s = .ok (s1, b)) :
    b = false ∧ s1.text_to_speak = s.text_to_speak := by
  unfold iteration at h
  split at h
  · cases h
  · rename_i sp hsp
    obtain ⟨p1, p2⟩ := predict_turn_locals _ _ _ hsp
    have hc : (commit sp).done = true := by simp [commit, p1, hd]
    simp only [hc, if_true] at h
    cases h
    exact ⟨rfl, by simp [commit, p2]⟩

/-- Line 761 in a state without pending tokens and with `done = false`. -/
theorem accept_eq (v : Vocab) (id : llama_token) (t : State) (he : t.embd = []) :
    (is_stop v id = true →
      accept v id t = { t with done := true, need_to_save_session := true }) ∧
    (is_stop v id = false →
      accept v id t =
        { t with embd := [id], text_to_speak := t.text_to_speak ++ v.token_to_piece id }) := by
  constructor
  · intro hs
    have : ((!v.is_eog id) && id != v.token_nl) = false := by
      simp only [is_stop] at hs
      cases h1 : v.is_eog id <;> cases h2 : (id == v.token_nl) <;> simp_all
    simp only [accept, this]
    rfl
  · intro hs
    have : ((!v.is_eog id) && id != v.token_nl) = true := by
      simp only [is_stop] at hs
      cases h1 : v.is_eog id <;> cases h2 : (id == v.token_nl) <;> simp_all
    simp only [accept, this, if_true, he, List.nil_append]

/-- Once `done` is set the loop is left at the next pass with `text_to_speak` as it is. -/
theorem inference_done (v : Vocab) (inps : List Input) (s s1 : State)
    (hd : s.done = true) (h : inference v inps s = .ok s1) :
    s1.text_to_speak = s.text_to_speak := by
  cases inps with
  | nil => simp only [inference] at h; cases h; rfl
  | cons inp rest =>
    simp only [inference] at h
    split at h
    · cases h
    · rename_i s2 hit
      exact absurd (iteration_done v inp s s2 true hd hit).1 (by decide)
    · rename_i s2 hit
      cases h
      exact (iteration_done v inp s s1 false hd hit).2

/-- The text spoken: a run of the loop from a state with `done = false` appends to
`text_to_speak` the pieces of the sampled tokens that are not stop tokens, in order. -/
theorem inference_text (v : Vocab) (inps : List Input) :
    ∀ s s1 : State, s.done = false → inference v inps s = .ok s1 →
      s1.text_to_speak = s.text_to_speak ++
        pieces v ((sampled_tokens v inps).filter (fun id => !is_stop v id)) := by
  induction inps with
  | nil =>
    intro s s1 _ h
    simp only [inference] at h
    cases h
    simp [sampled_tokens, pieces]
  | cons inp rest ih =>
    intro s s1 hd h
    simp only [inference] at h
    split at h
    · cases h
    · rename_i s2 hit
      obtain ⟨t, t1, t2, t3, hs2, hb⟩ := iteration_samples v inp s s2 true hd hit
      obtain ⟨a1, a2⟩ := accept_eq v inp.id t t1
      cases hst : is_stop v inp.id
      · have e := a2 hst
        have hd2 : s2.done = false := by rw [hs2, e]; exact t2
        have ht2 : s2.text_to_speak = s.text_to_speak ++ v.token_to_piece inp.id := by
          rw [hs2, e]; simp [t3]
        rw [ih s2 s1 hd2 h, ht2]
        simp [sampled_tokens, hst, ← hb, pieces, String.append_assoc]
      · have e := a1 hst
        have hd2 : s2.done = true := by rw [hs2, e]
        have ht2 : s2.text_to_speak = s.text_to_speak := by rw [hs2, e]; exact t3
        rw [inference_done v rest s2 s1 hd2 h, ht2]
        simp [sampled_tokens, hst, pieces]
    · rename_i s2 hit
      cases h
      obtain ⟨t, t1, t2, t3, hs2, hb⟩ := iteration_samples v inp s s1 false hd hit
      obtain ⟨a1, a2⟩ := accept_eq v inp.id t t1
      cases hst : is_stop v inp.id
      · rw [hs2, a2 hst]
        simp [sampled_tokens, hst, ← hb, pieces, t3]
      · rw [hs2, a1 hst]
        simp [sampled_tokens, hst, pieces, t3]

/-- C11. Handling of a sampled token (lines 761-777). The token `id` reaches line 761
in a state `t` with no pending tokens and `done = false`. If `id` is an end-of-generation
token or the line feed token, the only changes are `done := true` and
`need_to_save_session := true`: `id` joins neither the pending sequence (so it never
joins the history) nor `text_to_speak`. Otherwise the only changes are that the pending
sequence becomes `[id]` and that the piece of `id` is appended to `text_to_speak`; `done`
stays `false`. Every pass entered with `done = false` handles its sampled token in this
way, and so a run of the loop of a turn appends to `text_to_speak` the pieces of the
sampled tokens that are not stop tokens, in sampling order. -/
theorem sampled_token_handling (v : Vocab) :
    (∀ (id : llama_token) (t : State), t.embd = [] → t.done = false →
      (is_stop v id = true →
        accept v id t = { t with done := true, need_to_save_session := true }) ∧
      (is_stop v id = false →
        accept v id t =
          { t with embd := [id],
                   text_to_speak := t.text_to_speak ++ v.token_to_piece id })) ∧
    (∀ (inp : Input) (s s1 : State) (b : Bool), s.done = false →
      iteration v inp s = .ok (s1, b) →
      ∃ t : State, t.embd = [] ∧ t.done = false ∧ t.text_to_speak = s.text_to_speak ∧
        s1 = accept v inp.id t ∧ b = inp.is_running) ∧
    (∀ (tokens embd : List llama_token) (s : State) (inps : List Input) (s1 : State),
      inference v inps (begin_turn tokens embd s) = .ok s1 →
      s1.text_to_speak =
        pieces v ((sampled_tokens v inps).filter (fun id => !is_stop v id))) := by
  refine ⟨fun id t he _ => accept_eq v id t he, iteration_samples v, ?_⟩
  intro tokens embd s inps s1 h
  have := inference_text v inps (begin_turn tokens embd s) s1 rfl h
  simpa [begin_turn] using this

/-- C11, an example: in the first turn of the first run the sampler returns token 1,
token 2 and the line feed token 198; the loop is left in the fourth pass, and the text to
speak is "ab", the pieces of the two tokens that are not stop tokens. -/
theorem sampled_token_handling_witness :
    sampled_tokens vocab_ab
      [⟨true, 1, true⟩, ⟨true, 2, true⟩, ⟨true, 198, true⟩, ⟨true, 0, true⟩] = [1, 2, 198] ∧
    (∃ s1 : State,
      inference vocab_ab
        [⟨true, 1, true⟩, ⟨true, 2, true⟩, ⟨true, 198, true⟩, ⟨true, 0, true⟩]
        (begin_turn first_tokens first_embd first0) = .ok s1 ∧
      s1.done = true ∧ s1.text_to_speak = "ab" ∧
      s1.embd_inp = first_prompt ++ first_embd ++ [1, 2] ∧
      s1.text_to_speak = pieces vocab_ab
        ((sampled_tokens vocab_ab
          [⟨true, 1, true⟩, ⟨true, 2, true⟩, ⟨true, 198, true⟩, ⟨true, 0, true⟩]).filter
          (fun id => !is_stop vocab_ab id))) := by
  refine ⟨by decide, ?_⟩
  have hrun : ∃ s1 : State,
      inference vocab_ab
        [⟨true, 1, true⟩, ⟨true, 2, true⟩, ⟨true, 198, true⟩, ⟨true, 0, true⟩]
        (begin_turn first_tokens first_embd first0) = .ok s1 ∧
      s1.done = true ∧ s1.text_to_speak = "ab" ∧
      s1.embd_inp = first_prompt ++ first_embd ++ [1, 2] := by
    refine ⟨{ first_at_save with
      embd_inp := first_prompt ++ first_embd ++ [1, 2]
      session_tokens := first_embd ++ [1, 2]
      need_to_save_session := true
      n_past := 18
      n_session_consumed := 14
      done := true
      text_to_speak := "ab"
      decoded := [(0, first_prompt), (4, first_embd), (16, [1]), (17, [2])]
      saved := [first_embd] }, by decide, by decide, by decide, by decide⟩
  obtain ⟨s1, h1, h2, h3, h4⟩ := hrun
  exact ⟨s1, h1, h2, h3, h4,
    (sampled_token_handling vocab_ab).2.2 first_tokens first_embd first0 _ s1 h1⟩

/-- The window of the repetition penalty always has 256 cells. -/
theorem penalty_window_length (s : State) : (penalty_window s).length = 256 := by
  simp [penalty_window]

/-- When `256 <= n_past <= |embd_inp|` the window of the repetition penalty is the 256
tokens that end at index `n_past` of the history; these are the last 256 tokens of the
history only when `n_past = |embd_inp|`. -/
theorem penalty_window_inside (s : State) (n : Nat) (hn : s.n_past = (n : Int))
    (h1 : 256 ≤ n) (h2 : n ≤ s.embd_inp.length) :
    penalty_window s = ((s.embd_inp.take n).drop (n - 256)).map some := by
  apply List.ext_getElem?
  intro i
  have hstart : (max 0 (s.n_past - 256)).toNat = n - 256 := by omega
  simp only [penalty_window, hstart, List.getElem?_map, List.getElem?_drop]
  by_cases hi : i < 256
  · rw [List.getElem?_range hi, List.getElem?_take_of_lt (by omega)]
    have hlt : n - 256 + i < s.embd_inp.length := by omega
    simp [List.getElem?_eq_getElem hlt]
  · have h3 : (List.range 256)[i]? = none := by
      rw [List.getElem?_eq_none_iff, List.length_range]; omega
    have h4 : (s.embd_inp.take n)[n - 256 + i]? = none := by
      rw [List.getElem?_eq_none_iff, List.length_take]; omega
    simp [h3, h4]

/-- C12 on the code. On a first run with a prompt of 4 tokens, the first pass of the
first turn reaches the sampling step (lines 710-759) with a history of 16 tokens and
`n_past = 16`. The window handed to the repetition penalty starts at `embd_inp.data()` and
has 256 cells: the 16 tokens of the history followed by 240 cells past the end of the
vector. It is not the whole history. -/
theorem penalty_window_past_the_end :
    startup 2048 64 "talk.session" .absent first_prompt true = .ok first0 ∧
    predict true (begin_turn first_tokens first_embd first0) = .ok first_decoded ∧
    commit first_decoded = first_at_save ∧ first_at_save.done = false ∧
    (save_session first_at_save).embd_inp = first_prompt ++ first_embd ∧
    (save_session first_at_save).n_past = 16 ∧
    penalty_window (save_session first_at_save) =
      (first_prompt ++ first_embd).map some ++ List.replicate 240 none ∧
    penalty_window (save_session first_at_save) ≠
      ((save_session first_at_save).embd_inp.drop
        ((save_session first_at_save).embd_inp.length - 256)).map some := by
  set_option maxRecDepth 20000 in decide

/-- The window after overflows, with the constants of the program. The pass that
follows `long1` overflows again and reaches its sampling step in `long2_sampling`, where
the history has 2181 tokens and `n_past = 2105`: the window handed to the repetition
penalty is made of the tokens at the indices 1849 to 2104 and leaves out the last 76
tokens of the history. -/
theorem penalty_window_after_overflow :
    (∃ sp : State, predict true long1 = .ok sp ∧ (commit sp).done = false ∧
      save_session (commit sp) = long2_sampling) ∧
    long2_sampling.embd_inp.length = 2181 ∧ long2_sampling.n_past = 2105 ∧
    penalty_window long2_sampling =
      ((long2_sampling.embd_inp.take 2105).drop 1849).map some := by
  have hlen := long_prompt_length
  have hturn := tokens_from_length 300 12
  have hl1 : long1.embd_inp.length = 2116 := by
    simp [long1, hlen, hturn]
  have hl2 : long2_sampling.embd_inp.length = 2181 := by
    simp only [long2_sampling, List.length_append, List.length_drop, hl1]
    rfl
  refine ⟨?_, hl2, rfl, ?_⟩
  · refine ⟨{ long1 with
      n_past := 2040
      embd := long1.embd_inp.drop 2052 ++ [5]
      decoded := long1.decoded ++ [(2040, long1.embd_inp.drop 2052 ++ [5])] }, ?_, rfl, ?_⟩
    · have h1 : long1.embd = [5] := rfl
      have h2 : long1.n_past = 2116 := rfl
      have h3 : long1.n_ctx = 2048 := rfl
      have h4 : long1.n_prev = 64 := rfl
      have h5 : long1.n_session_consumed = 0 := rfl
      have h6 : long1.session_tokens = [] := rfl
      have h7 : long1.path_session = "" := rfl
      have h8 : long1.n_keep = 2040 := rfl
      simp [predict, overflow, reuse, record, decode, h1, h2, h3, h4, h5, h6, h7, h8, hl1]
    · simp [save_session, commit, long2_sampling, long1, hlen, hturn]
  · exact penalty_window_inside long2_sampling 2105 rfl (by decide) (by omega)

/-- The candidate list handed to the selection step is the one that the repetition
penalty returned; the assignment of line 747 goes to the array `logits`, which the
penalty did not change, and leaves the array as it was after line 730. -/
theorem sampler_candidates_eq {σ : Type} (zero : σ)
    (penalties : List (Option llama_token) → List (llama_token × σ) → List (llama_token × σ))
    (eos nl : Nat) (last_tokens : List (Option llama_token)) (logits : List σ)
    (he : eos < logits.length) (hn : nl < logits.length) :
    sampler_candidates zero penalties eos nl last_tokens logits =
      .ok (logits.set eos zero,
        penalties last_tokens
          ((logits.set eos zero).enum.map (fun p => ((p.1 : Int), p.2)))) := by
  have hn1 : nl < (logits.set eos zero).length := by rw [List.length_set]; exact hn
  have hget : (logits.set eos zero)[nl]? = some (logits.set eos zero)[nl] :=
    List.getElem?_eq_getElem hn1
  simp only [sampler_candidates, he, if_true, hget]
  congr 2
  apply List.ext_getElem?
  intro i
  by_cases hi : i = nl
  · subst hi
    rw [List.getElem?_set_self hn1, hget]
  · rw [List.getElem?_set_ne (fun h => hi h.symm)]

/-- C13 on the code. With a vocabulary of three tokens (end of sequence 0, line feed 1),
scores 2, 3, 5, the line feed in the window of recent tokens and the penalty 1.1764, the
candidate list handed to the selection step gives the line feed the score 3 / 1.1764 =
7500 / 2941 that the penalty left, and not the score 3 it had before the penalty; the
array `logits` holds 3 for it before and after line 747. -/
theorem newline_score_stays_penalized :
    sampler_candidates (0 : ℚ) (example_penalties (2941 / 2500)) 0 1 [some 1] [2, 3, 5] =
      .ok ([0, 3, 5], [(0, 0), (1, 7500 / 2941), (2, 5)]) ∧
    (7500 / 2941 : ℚ) ≠ 3 := by
  constructor
  · rw [sampler_candidates_eq _ _ _ _ _ _ (by decide) (by decide)]
    norm_num [example_penalties, List.enum, List.enumFrom]
  · norm_num

/-- Examples of the clean-up of the heard text. -/
theorem normalize_examples :
    normalize "[laughs] Hello (to you)!!\nok".data = "Hello !!".data ∧
    normalize "what time is it ".data = "what time is it".data ∧
    get_words " hello  bot\twhat ".data = ["hello".data, "bot".data, "what".data] := by
  decide

/-- What `strip_trailing` returns is an initial segment of its argument. -/
theorem strip_trailing_initial (l : List Char) : strip_trailing l <+: l := by
  induction l with
  | nil => exact List.prefix_refl _
  | cons c rest ih =>
    simp only [strip_trailing]
    split
    · exact List.nil_prefix
    · obtain ⟨t, ht⟩ := ih
      exact ⟨t, by rw [List.cons_append, ht]⟩

/-- When `strip_trailing` returns nothing, its argument was white space only. -/
theorem strip_trailing_nil (l : List Char) (h : strip_trailing l = []) :
    l.all is_space = true := by
  cases l with
  | nil => rfl
  | cons c rest =>
    simp only [strip_trailing] at h
    split at h
    · assumption
    · cases h

/-- What `strip_trailing` returns does not end with white space. -/
theorem strip_trailing_last (l : List Char) :
    ∀ c : Char, (strip_trailing l).getLast? = some c → is_space c = false := by
  induction l with
  | nil => intro c h; simp [strip_trailing] at h
  | cons x rest ih =>
    intro c h
    simp only [strip_trailing] at h
    split at h
    · simp at h
    · rename_i hall
      cases hst : strip_trailing rest with
      | nil =>
        rw [hst] at h
        simp only [List.getLast?_singleton, Option.some.injEq] at h
        have hrest := strip_trailing_nil rest hst
        cases hx : is_space x
        · rw [← h]; exact hx
        · exact absurd (by simp [List.all_cons, hx, hrest]) hall
      | cons y ys =>
        rw [hst, List.getLast?_cons_cons] at h
        exact ih c (by rw [hst]; exact h)

/-- What is left after the leading white space is dropped does not begin with white
space. -/
theorem dropWhile_space_head (l : List Char) :
    ∀ c : Char, (l.dropWhile is_space).head? = some c → is_space c = false := by
  induction l with
  | nil => intro c h; simp at h
  | cons x rest ih =>
    intro c h
    cases hx : is_space x
    · rw [List.dropWhile_cons_of_neg (by simp [hx])] at h
      simp only [List.head?_cons, Option.some.injEq] at h
      rw [← h]; exact hx
    · rw [List.dropWhile_cons_of_pos hx] at h
      exact ih c h

/-- Every character of the cleaned text passed the bracket expression of line 582 and is
not a line feed. -/
theorem normalize_mem (text_heard : List Char) (c : Char) (h : c ∈ normalize text_heard) :
    allowed c = true ∧ c ≠ '\n' := by
  simp only [normalize] at h
  have h5 := (strip_trailing_initial _).subset h
  have h4 := (List.dropWhile_suffix is_space).subset h5
  simp only [first_line] at h4
  have hnl := List.mem_takeWhile_imp h4
  have h3 := (List.takeWhile_prefix _).subset h4
  have hall := (List.mem_filter.mp h3).2
  refine ⟨hall, ?_⟩
  intro hc
  rw [hc] at hnl
  exact absurd hnl (by decide)

/-- C16. Clean-up of the heard text (lines 569-589). For every text, every character of
the result is an ASCII letter, a digit, one of `. , ? ! : - ` and the apostrophe, or
white space; the result holds no line feed, no bracket and no parenthesis; it neither
begins nor ends with white space. The text "[laughs] Hello (to you)!!", a line feed and
"ok" is cleaned to "Hello !!". -/
theorem normalize_spec (text_heard : List Char) :
    (∀ c ∈ normalize text_heard,
      ('a' ≤ c ∧ c ≤ 'z') ∨ ('A' ≤ c ∧ c ≤ 'Z') ∨ ('0' ≤ c ∧ c ≤ '9') ∨
      c ∈ ['.', ',', '?', '!', ':', Char.ofNat 39, '-'] ∨ is_space c = true) ∧
    '\n' ∉ normalize text_heard ∧
    '[' ∉ normalize text_heard ∧ ']' ∉ normalize text_heard ∧
    '(' ∉ normalize text_heard ∧ ')' ∉ normalize text_heard ∧
    (∀ c : Char, (normalize text_heard).head? = some c → is_space c = false) ∧
    (∀ c : Char, (normalize text_heard).getLast? = some c → is_space c = false) ∧
    normalize "[laughs] Hello (to you)!!\nok".data = "Hello !!".data := by
  refine ⟨?_, ?_, ?_, ?_, ?_, ?_, ?_, ?_, by decide⟩
  · intro c hc
    have ha := (normalize_mem text_heard c hc).1
    simp only [allowed, Bool.or_eq_true, Bool.and_eq_true, decide_eq_true_eq,
      beq_iff_eq] at ha
    simp only [List.mem_cons, List.mem_singleton, List.not_mem_nil, or_false]
    tauto
  · intro h; exact (normalize_mem text_heard _ h).2 rfl
  · intro h; exact absurd (normalize_mem text_heard _ h).1 (by decide)
  · intro h; exact absurd (normalize_mem text_heard _ h).1 (by decide)
  · intro h; exact absurd (normalize_mem text_heard _ h).1 (by decide)
  · intro h; exact absurd (normalize_mem text_heard _ h).1 (by decide)
  · intro c hc
    simp only [normalize] at hc
    obtain ⟨t, ht⟩ := strip_trailing_initial
      ((first_line ((remove_spans '(' ')' (remove_spans '[' ']' text_heard 0) 0).filter
        allowed)).dropWhile is_space)
    apply dropWhile_space_head
      (first_line ((remove_spans '(' ')' (remove_spans '[' ']' text_heard 0) 0).filter allowed))
    rw [← ht]
    cases hst : strip_trailing
      ((first_line ((remove_spans '(' ')' (remove_spans '[' ']' text_heard 0) 0).filter
        allowed)).dropWhile is_space) with
    | nil => rw [hst] at hc; simp at hc
    | cons y ys => rw [hst] at hc; simpa using hc
  · intro c hc
    exact strip_trailing_last _ c hc

/-- The loop of lines 546-552 puts the words with an index below `wake_cmd_length` into
`wake_cmd_heard` and the others into `text_heard`, each followed by one space. -/
theorem heard_loop_eq (N : Nat) (words : List (List Char)) :
    ∀ (i : Nat) (wake_cmd_heard text_heard : List Char),
      heard_loop N words i (wake_cmd_heard, text_heard) =
        (wake_cmd_heard ++ (words.take (N - i)).flatMap (fun w => w ++ [' ']),
         text_heard ++ (words.drop (N - i)).flatMap (fun w => w ++ [' '])) := by
  induction words with
  | nil => intro i a b; simp [heard_loop]
  | cons w rest ih =>
    intro i a b
    by_cases hi : i < N
    · have e : N - i = (N - (i + 1)) + 1 := by omega
      simp only [heard_loop, hi, if_true, ih]
      rw [e]
      simp [List.append_assoc]
    · have e : N - i = 0 := by omega
      have e1 : N - (i + 1) = 0 := by omega
      simp only [heard_loop, hi, if_false, ih]
      rw [e, e1]
      simp [List.append_assoc]

/-- The value of the wake-up command gate, whether or not a wake phrase is configured, in
terms of the words heard. -/
theorem wake_gate_eq (similarity : List Char → List Char → ℚ)
    (wake_cmd all_heard : List Char) :
    wake_gate similarity wake_cmd all_heard =
      if 0 < (get_words wake_cmd).length then
        if similarity (((get_words all_heard).take (get_words wake_cmd).length).flatMap
              (fun w => w ++ [' '])) wake_cmd < 1 / 2 ∨
            ((get_words all_heard).drop (get_words wake_cmd).length).flatMap
              (fun w => w ++ [' ']) = []
        then none
        else some (((get_words all_heard).drop (get_words wake_cmd).length).flatMap
          (fun w => w ++ [' ']))
      else some (((get_words all_heard).drop (get_words wake_cmd).length).flatMap
          (fun w => w ++ [' '])) := by
  simp only [wake_gate, heard_loop_eq, Nat.sub_zero, List.nil_append]

/-- The words that follow the wake phrase, each with its space, make an empty text only
when there are none. -/
theorem rest_words_nil (words : List (List Char)) (N : Nat) :
    (words.drop N).flatMap (fun w => w ++ [' ']) = [] ↔ words.length ≤ N := by
  rw [← List.drop_eq_nil_iff]
  cases words.drop N with
  | nil => simp
  | cons w ws => simp

/-- C15. Wake-phrase gate (lines 541-562). With a wake phrase of `N >= 1` words
configured, for every heard transcript: the gate lets the turn pass exactly when the
similarity of the first `min(N, count)` heard words, each followed by one space, to the
wake phrase is at least 0.5 and the transcript has more than `N` words, and the text it
hands on is then the remaining words, each followed by one space; otherwise the gate
drops the turn, and the pass ends discarded without a turn being opened. -/
theorem wake_gate_spec (similarity : List Char → List Char → ℚ)
    (wake_cmd all_heard : List Char) (hN : 1 ≤ (get_words wake_cmd).length) :
    wake_gate similarity wake_cmd all_heard =
      (if 1 / 2 ≤ similarity
            (((get_words all_heard).take (get_words wake_cmd).length).flatMap
              (fun w => w ++ [' '])) wake_cmd ∧
          (get_words wake_cmd).length < (get_words all_heard).length
       then some (((get_words all_heard).drop (get_words wake_cmd).length).flatMap
          (fun w => w ++ [' ']))
       else none) ∧
    (¬ (1 / 2 ≤ similarity
            (((get_words all_heard).take (get_words wake_cmd).length).flatMap
              (fun w => w ++ [' '])) wake_cmd ∧
          (get_words wake_cmd).length < (get_words all_heard).length) →
      ∀ tokenize : List Char → List llama_token,
        hear similarity tokenize wake_cmd true false all_heard = .discarded) := by
  have hpos : 0 < (get_words wake_cmd).length := by omega
  have hgate := wake_gate_eq similarity wake_cmd all_heard
  rw [if_pos hpos] at hgate
  have key : wake_gate similarity wake_cmd all_heard =
      (if 1 / 2 ≤ similarity
            (((get_words all_heard).take (get_words wake_cmd).length).flatMap
              (fun w => w ++ [' '])) wake_cmd ∧
          (get_words wake_cmd).length < (get_words all_heard).length
       then some (((get_words all_heard).drop (get_words wake_cmd).length).flatMap
          (fun w => w ++ [' ']))
       else none) := by
    rw [hgate]
    by_cases h1 : similarity (((get_words all_heard).take (get_words wake_cmd).length).flatMap
        (fun w => w ++ [' '])) wake_cmd < 1 / 2
    · rw [if_pos (Or.inl h1), if_neg (fun h => absurd h.1 (not_le.mpr h1))]
    · by_cases h2 : (get_words all_heard).length ≤ (get_words wake_cmd).length
      · rw [if_pos (Or.inr ((rest_words_nil _ _).mpr h2)),
          if_neg (fun h => absurd h.2 (not_lt.mpr h2))]
      · have h3 := fun h => h2 ((rest_words_nil (get_words all_heard) _).mp h)
        rw [if_neg (by tauto), if_pos ⟨not_lt.mp h1, not_le.mp h2⟩]
  refine ⟨key, ?_⟩
  intro hno tokenize
  simp only [hear, Bool.or_false, if_true, Bool.not_false, key, if_neg hno]

/-- C15, the example: with the wake phrase "hello bot" and a similarity score of 1, the
heard text "hello bot what time is it" passes the gate with the text "what time is it "
(cleaned to "what time is it"), and the heard text "goodbye now" is dropped whatever the
similarity function is. -/
theorem wake_gate_spec_witness :
    (get_words "hello bot".data).length = 2 ∧
    wake_gate (fun _ _ => 1) "hello bot".data "hello bot what time is it".data =
      some "what time is it ".data ∧
    normalize "what time is it ".data = "what time is it".data ∧
    (∀ similarity : List Char → List Char → ℚ,
      wake_gate similarity "hello bot".data "goodbye now".data = none ∧
      ∀ tokenize : List Char → List llama_token,
        hear similarity tokenize "hello bot".data true false "goodbye now".data
          = .discarded) := by
  have hw : get_words "hello bot".data = ["hello".data, "bot".data] := by decide
  have h1 : get_words "hello bot what time is it".data =
      ["hello".data, "bot".data, "what".data, "time".data, "is".data, "it".data] := by decide
  have h2 : get_words "goodbye now".data = ["goodbye".data, "now".data] := by decide
  refine ⟨by decide, ?_, by decide, ?_⟩
  · rw [(wake_gate_spec (fun _ _ => 1) "hello bot".data "hello bot what time is it".data
      (by decide)).1]
    rw [if_pos ⟨by norm_num, by decide⟩, hw, h1]
    decide
  · intro similarity
    have h := wake_gate_spec similarity "hello bot".data "goodbye now".data (by decide)
    have hno : ¬ (1 / 2 ≤ similarity
        (((get_words "goodbye now".data).take (get_words "hello bot".data).length).flatMap
          (fun w => w ++ [' '])) "hello bot".data ∧
        (get_words "hello bot".data).length < (get_words "goodbye now".data).length) := by
      rw [hw, h2]
      exact fun h => absurd h.2 (by decide)
    exact ⟨by rw [h.1, if_neg hno], h.2 hno⟩

end Talk
